import Mathlib

set_option maxRecDepth 4000

/-!
Shallow embedding of the object-pool benchmark code (`golang_primitives/helpers.go`).

Modelling conventions:
* Go's machine integers that the code keeps nonnegative (`head`, `tail`, `size`,
  `capacity` of the ring buffer, shard counts) are `Nat`; the atomic pool's
  `int64` fill index and the signed `shardIndex` field are `Int`.
* Pointers to `testObject` are modelled as values; object identity is tracked
  through the `ID` field, which a counting allocator stamps with a fresh number
  on every call.
* The injected allocator `func() *testObject` may carry hidden state (such as an
  allocation counter), so it is embedded as a state-threading function
  `sigma -> testObject x sigma` and every operation that can allocate threads the
  allocator state.
* Locks (`sync.Mutex`, `sync.RWMutex`) bracket whole method bodies; in the
  single-threaded semantics of the embedding they collapse to nothing.
* Operations that can suspend forever in a single-threaded execution (a blocking
  channel send with a full buffer, `cond.Wait` with no other thread) and slice
  accesses that panic in Go (shard lookup with an out-of-range index) are
  embedded as `Option`-valued functions returning `none` in those situations.
-/

/-- Pooled object, mirroring `testObject`: an integer ID, a string payload
and a signed cached shard index (`-1` meaning not yet assigned). -/
structure testObject where
  ID : Int
  Data : String
  shardIndex : Int
deriving Repr, DecidableEq, Inhabited

/-- Test allocator from `helpers.go`: produces a fresh object with
`ID = 0`, `Data = "test"` and unassigned shard index `-1`. It keeps no
state, so the allocator state is returned unchanged. -/
def testAllocator {σ : Type} (s : σ) : testObject × σ :=
  ({ ID := 0, Data := "test", shardIndex := -1 }, s)

/-- Test cleaner from `helpers.go`: resets `ID`, `Data` and `shardIndex`
to the canonical empty state. -/
def testCleaner (_obj : testObject) : testObject :=
  { ID := 0, Data := "", shardIndex := -1 }

/-- Object produced by the `n`-th call of the counting allocator. -/
def mkObj (n : Nat) : testObject :=
  { ID := n, Data := "test", shardIndex := -1 }

/-- Counting allocator: behaves like `testAllocator` but stamps each object
with the value of an allocation counter, so allocations are observable and
distinct objects have distinct IDs. This is the "allocation counter wrapping
the allocator" used by the testable properties. -/
def countingAllocator (n : Nat) : testObject × Nat :=
  (mkObj n, n + 1)

/-! ## Ring buffer (`RingBuffer[T]`) -/

/-- Fixed-capacity circular buffer, mirroring `RingBuffer[T]`. The backing
slice `make([]T, capacity)` starts as `capacity` zero values. -/
structure RingBuffer (T : Type) where
  buffer : List T
  head : Nat
  tail : Nat
  size : Nat
  capacity : Nat
deriving Repr, DecidableEq

/-- Constructor `NewRingBuffer`. -/
def NewRingBuffer (T : Type) [Inhabited T] (capacity : Nat) : RingBuffer T :=
  { buffer := List.replicate capacity default
    capacity := capacity
    size := 0
    head := 0
    tail := 0 }

/-- Method `Push`: fails returning `false` when the buffer is full, otherwise
writes at `tail` and advances `tail` modulo `capacity`. -/
def RingBuffer.Push {T : Type} (rb : RingBuffer T) (item : T) : Bool × RingBuffer T :=
  if rb.size ≥ rb.capacity then
    (false, rb)
  else
    (true, { rb with
      buffer := rb.buffer.set rb.tail item
      tail := (rb.tail + 1) % rb.capacity
      size := rb.size + 1 })

/-- Method `Pop`: fails returning the zero value and `false` when the buffer is
empty, otherwise reads at `head` and advances `head` modulo `capacity`. -/
def RingBuffer.Pop {T : Type} [Inhabited T] (rb : RingBuffer T) :
    T × Bool × RingBuffer T :=
  if rb.size ≤ 0 then
    (default, false, rb)
  else
    (rb.buffer.getD rb.head default, true,
      { rb with head := (rb.head + 1) % rb.capacity, size := rb.size - 1 })

/-- Method `IsEmpty`. -/
def RingBuffer.IsEmpty {T : Type} (rb : RingBuffer T) : Bool :=
  rb.size == 0

/-- Method `IsFull`. -/
def RingBuffer.IsFull {T : Type} (rb : RingBuffer T) : Bool :=
  rb.size == rb.capacity

/-- Method `Size`. -/
def RingBuffer.Size {T : Type} (rb : RingBuffer T) : Nat :=
  rb.size

/-- Structural invariant of a reachable ring buffer: the size is bounded by the
capacity, `head` and `tail` are in-range indices, the backing store has exactly
`capacity` slots, and `tail` sits `size` slots after `head` modulo `capacity`. -/
def RingBuffer.Inv {T : Type} (rb : RingBuffer T) : Prop :=
  rb.size ≤ rb.capacity ∧ rb.head < rb.capacity ∧ rb.tail < rb.capacity ∧
  rb.buffer.length = rb.capacity ∧ rb.tail = (rb.head + rb.size) % rb.capacity

instance {T : Type} (rb : RingBuffer T) : Decidable rb.Inv := by
  unfold RingBuffer.Inv; infer_instance

/-- Logical contents of the ring buffer, oldest first. -/
def RingBuffer.toList {T : Type} [Inhabited T] (rb : RingBuffer T) : List T :=
  (List.range rb.size).map (fun i => rb.buffer.getD ((rb.head + i) % rb.capacity) default)

/-! ## Single-segment pool variants -/

/-- Mutex-protected ring-buffer pool (`MutexRingBufferPool`). The mutex guards
the whole method bodies and disappears in the single-threaded semantics. -/
structure MutexRingBufferPool (σ : Type) where
  ringBuffer : RingBuffer testObject
  allocator : σ → testObject × σ
  cleaner : testObject → testObject

/-- Pre-population loop of the ring-buffer pools:
`for range capacity { pool.ringBuffer.Push(allocator()) }`. -/
def prepopRB {σ : Type} (allocator : σ → testObject × σ) :
    Nat → RingBuffer testObject → σ → RingBuffer testObject × σ
  | 0, rb, s => (rb, s)
  | n + 1, rb, s =>
      let (obj, s') := allocator s
      prepopRB allocator n ((rb.Push obj).2) s'

/-- Constructor `NewMutexRingBufferPool`: fresh ring buffer pre-populated to
capacity. -/
def NewMutexRingBufferPool {σ : Type} (capacity : Nat)
    (allocator : σ → testObject × σ) (cleaner : testObject → testObject)
    (s : σ) : MutexRingBufferPool σ × σ :=
  let (rb, s') := prepopRB allocator capacity (NewRingBuffer testObject capacity) s
  ({ ringBuffer := rb, allocator := allocator, cleaner := cleaner }, s')

/-- Method `MutexRingBufferPool.Get`: pop, falling back to the allocator when
the buffer is empty. -/
def MutexRingBufferPool.Get {σ : Type} (p : MutexRingBufferPool σ) (s : σ) :
    testObject × MutexRingBufferPool σ × σ :=
  let (obj, ok, rb') := p.ringBuffer.Pop
  if ok then (obj, { p with ringBuffer := rb' }, s)
  else
    let (fresh, s') := p.allocator s
    (fresh, p, s')

/-- Method `MutexRingBufferPool.Put`: push, silently discarding the object when
the buffer is full. The cleaner is not invoked. -/
def MutexRingBufferPool.Put {σ : Type} (p : MutexRingBufferPool σ)
    (obj : testObject) : MutexRingBufferPool σ :=
  { p with ringBuffer := (p.ringBuffer.Push obj).2 }

/-- RWMutex-protected ring-buffer pool (`RWMutexRingBufferPool`, from the
repository's full source). Both `Get` and `Put` take the write lock, so the
semantics matches the mutex variant. -/
structure RWMutexRingBufferPool (σ : Type) where
  ringBuffer : RingBuffer testObject
  allocator : σ → testObject × σ
  cleaner : testObject → testObject

/-- Constructor `NewRWMutexRingBufferPool`. -/
def NewRWMutexRingBufferPool {σ : Type} (capacity : Nat)
    (allocator : σ → testObject × σ) (cleaner : testObject → testObject)
    (s : σ) : RWMutexRingBufferPool σ × σ :=
  let (rb, s') := prepopRB allocator capacity (NewRingBuffer testObject capacity) s
  ({ ringBuffer := rb, allocator := allocator, cleaner := cleaner }, s')

/-- Method `RWMutexRingBufferPool.Get`. -/
def RWMutexRingBufferPool.Get {σ : Type} (p : RWMutexRingBufferPool σ) (s : σ) :
    testObject × RWMutexRingBufferPool σ × σ :=
  let (obj, ok, rb') := p.ringBuffer.Pop
  if ok then (obj, { p with ringBuffer := rb' }, s)
  else
    let (fresh, s') := p.allocator s
    (fresh, p, s')

/-- Method `RWMutexRingBufferPool.Put`. -/
def RWMutexRingBufferPool.Put {σ : Type} (p : RWMutexRingBufferPool σ)
    (obj : testObject) : RWMutexRingBufferPool σ :=
  { p with ringBuffer := (p.ringBuffer.Push obj).2 }

/-- Channel-based pool (`ChannelBasedPool`). The bounded channel is a FIFO
queue whose front is the next value a receive takes. -/
structure ChannelBasedPool (σ : Type) where
  objects : List testObject
  capacity : Nat
  allocator : σ → testObject × σ
  cleaner : testObject → testObject

/-- Pre-population loop of the channel pool: `capacity` sends into a channel
that starts empty, each of which appends to the queue. -/
def prepopChan {σ : Type} (allocator : σ → testObject × σ) :
    Nat → List testObject → σ → List testObject × σ
  | 0, q, s => (q, s)
  | n + 1, q, s =>
      let (obj, s') := allocator s
      prepopChan allocator n (q ++ [obj]) s'

/-- Constructor `NewChannelBasedPool`. -/
def NewChannelBasedPool {σ : Type} (capacity : Nat)
    (allocator : σ → testObject × σ) (cleaner : testObject → testObject)
    (s : σ) : ChannelBasedPool σ × σ :=
  let (q, s') := prepopChan allocator capacity [] s
  ({ objects := q, capacity := capacity, allocator := allocator, cleaner := cleaner }, s')

/-- Method `ChannelBasedPool.Get`: non-blocking receive via `select`/`default`,
falling back to the allocator when the channel is empty. -/
def ChannelBasedPool.Get {σ : Type} (p : ChannelBasedPool σ) (s : σ) :
    testObject × ChannelBasedPool σ × σ :=
  match p.objects with
  | obj :: rest => (obj, { p with objects := rest }, s)
  | [] =>
      let (fresh, s') := p.allocator s
      (fresh, p, s')

/-- Method `ChannelBasedPool.Put`: applies the cleaner, then performs a
blocking send. When the channel buffer is full the single-threaded execution
suspends forever, modelled as `none`; objects are never dropped. -/
def ChannelBasedPool.Put {σ : Type} (p : ChannelBasedPool σ)
    (obj : testObject) : Option (ChannelBasedPool σ) :=
  let cleaned := p.cleaner obj
  if p.objects.length < p.capacity then
    some { p with objects := p.objects ++ [cleaned] }
  else
    none

/-- Mutex-protected slice-based pool (`MutexBasedPool`). The slice has length
`objects.length` and a fixed backing capacity `capacity` from
`make([]*testObject, 0, capacity)`. -/
structure MutexBasedPool (σ : Type) where
  objects : List testObject
  capacity : Nat
  allocator : σ → testObject × σ
  cleaner : testObject → testObject

/-- Pre-population loop of the slice pools:
`pool.objects = append(pool.objects, allocator())`, `capacity` times. -/
def prepopSlice {σ : Type} (allocator : σ → testObject × σ) :
    Nat → List testObject → σ → List testObject × σ
  | 0, l, s => (l, s)
  | n + 1, l, s =>
      let (obj, s') := allocator s
      prepopSlice allocator n (l ++ [obj]) s'

/-- Constructor `NewMutexBasedPool`. -/
def NewMutexBasedPool {σ : Type} (capacity : Nat)
    (allocator : σ → testObject × σ) (cleaner : testObject → testObject)
    (s : σ) : MutexBasedPool σ × σ :=
  let (l, s') := prepopSlice allocator capacity [] s
  ({ objects := l, capacity := capacity, allocator := allocator, cleaner := cleaner }, s')

/-- Method `MutexBasedPool.Get`: allocates when the slice is empty, otherwise
takes the last element. -/
def MutexBasedPool.Get {σ : Type} (p : MutexBasedPool σ) (s : σ) :
    testObject × MutexBasedPool σ × σ :=
  if p.objects.length = 0 then
    let (fresh, s') := p.allocator s
    (fresh, p, s')
  else
    (p.objects.getD (p.objects.length - 1) default,
     { p with objects := p.objects.dropLast }, s)

/-- Method `MutexBasedPool.Put`: appends while below the slice's backing
capacity, silently dropping otherwise. The cleaner is not invoked. -/
def MutexBasedPool.Put {σ : Type} (p : MutexBasedPool σ)
    (obj : testObject) : MutexBasedPool σ :=
  if p.objects.length < p.capacity then
    { p with objects := p.objects ++ [obj] }
  else
    p

/-- Lock-free pool (`AtomicBasedPool`): a fixed array plus an atomic fill
index. The embedding gives the single-threaded semantics of the CAS loops, in
which the first compare-and-swap always succeeds. -/
structure AtomicBasedPool (σ : Type) where
  objects : List testObject
  index : Int
  capacity : Int
  allocator : σ → testObject × σ
  cleaner : testObject → testObject

/-- Pre-population loop of the atomic pool:
`for i := range capacity { pool.objects[i] = allocator() }`, producing the
slots in ascending order. -/
def prepopList {σ : Type} (allocator : σ → testObject × σ) :
    Nat → σ → List testObject × σ
  | 0, s => ([], s)
  | n + 1, s =>
      let (obj, s') := allocator s
      let (rest, s'') := prepopList allocator n s'
      (obj :: rest, s'')

/-- Constructor `NewAtomicBasedPool`: fills every slot and stores
`index = capacity`. -/
def NewAtomicBasedPool {σ : Type} (capacity : Nat)
    (allocator : σ → testObject × σ) (cleaner : testObject → testObject)
    (s : σ) : AtomicBasedPool σ × σ :=
  let (l, s') := prepopList allocator capacity s
  ({ objects := l, index := capacity, capacity := capacity,
     allocator := allocator, cleaner := cleaner }, s')

/-- Method `AtomicBasedPool.Get`: load the index; at `<= 0` allocate, otherwise
decrement by compare-and-swap and return the slot at the decremented index. -/
def AtomicBasedPool.Get {σ : Type} (p : AtomicBasedPool σ) (s : σ) :
    testObject × AtomicBasedPool σ × σ :=
  let idx := p.index
  if idx ≤ 0 then
    let (fresh, s') := p.allocator s
    (fresh, p, s')
  else
    (p.objects.getD (idx - 1).toNat default, { p with index := idx - 1 }, s)

/-- Method `AtomicBasedPool.Put`: load the index; at `>= capacity` drop the
object, otherwise store it at the pre-increment index and increment by
compare-and-swap. The cleaner is not invoked. -/
def AtomicBasedPool.Put {σ : Type} (p : AtomicBasedPool σ)
    (obj : testObject) : AtomicBasedPool σ :=
  let idx := p.index
  if idx ≥ p.capacity then
    p
  else
    { p with objects := p.objects.set idx.toNat obj, index := idx + 1 }

/-- Condition-variable slice pool (`CondBasedPool`): `Get` waits on the
condition variable while the slice is empty — in a single-threaded execution
that wait never ends, modelled as `none`. -/
structure CondBasedPool (σ : Type) where
  objects : List testObject
  capacity : Nat
  allocator : σ → testObject × σ
  cleaner : testObject → testObject

/-- Constructor `NewCondBasedPool`. -/
def NewCondBasedPool {σ : Type} (capacity : Nat)
    (allocator : σ → testObject × σ) (cleaner : testObject → testObject)
    (s : σ) : CondBasedPool σ × σ :=
  let (l, s') := prepopSlice allocator capacity [] s
  ({ objects := l, capacity := capacity, allocator := allocator, cleaner := cleaner }, s')

/-- Method `CondBasedPool.Get`: blocks while empty, otherwise takes the last
element. -/
def CondBasedPool.Get {σ : Type} (p : CondBasedPool σ) :
    Option (testObject × CondBasedPool σ) :=
  if p.objects.length = 0 then
    none
  else
    some (p.objects.getD (p.objects.length - 1) default,
      { p with objects := p.objects.dropLast })

/-- Method `CondBasedPool.Put`: appends and signals while below capacity,
silently dropping otherwise. -/
def CondBasedPool.Put {σ : Type} (p : CondBasedPool σ)
    (obj : testObject) : CondBasedPool σ :=
  if p.objects.length < p.capacity then
    { p with objects := p.objects ++ [obj] }
  else
    p

/-- Condition-variable ring-buffer pool (`RingBufferCondPool`): `Get` waits on
the condition variable while the ring buffer is empty. -/
structure RingBufferCondPool (σ : Type) where
  ringBuffer : RingBuffer testObject
  allocator : σ → testObject × σ
  cleaner : testObject → testObject

/-- Constructor `NewRingBufferCondPool`. -/
def NewRingBufferCondPool {σ : Type} (capacity : Nat)
    (allocator : σ → testObject × σ) (cleaner : testObject → testObject)
    (s : σ) : RingBufferCondPool σ × σ :=
  let (rb, s') := prepopRB allocator capacity (NewRingBuffer testObject capacity) s
  ({ ringBuffer := rb, allocator := allocator, cleaner := cleaner }, s')

/-- Method `RingBufferCondPool.Get`: blocks while empty, otherwise pops. -/
def RingBufferCondPool.Get {σ : Type} (p : RingBufferCondPool σ) :
    Option (testObject × RingBufferCondPool σ) :=
  if p.ringBuffer.IsEmpty then
    none
  else
    let (obj, _, rb') := p.ringBuffer.Pop
    some (obj, { p with ringBuffer := rb' })

/-- Method `RingBufferCondPool.Put`: pushes and signals unless full, silently
dropping otherwise. -/
def RingBufferCondPool.Put {σ : Type} (p : RingBufferCondPool σ)
    (obj : testObject) : RingBufferCondPool σ :=
  if p.ringBuffer.IsFull then
    p
  else
    { p with ringBuffer := (p.ringBuffer.Push obj).2 }

/-! ## Sharded pool wrappers

The affinity resolver `runtime.procPin` supplies the index of the logical
processor running the caller; the embedding takes that pinned index as an
explicit argument. A shard lookup `p.shards[i]` with `i` outside the slice
bounds panics in Go and is modelled as `none`. -/

/-- Shard construction loop shared by the sharded constructors:
`for i := range numShards { shards[i] = New...(shardCapacity, ...) }`,
threading the allocator state left to right. -/
def mkShards {σ α : Type} (new : σ → α × σ) : Nat → σ → List α × σ
  | 0, s => ([], s)
  | n + 1, s =>
      let (shard, s') := new s
      let (rest, s'') := mkShards new n s'
      (shard :: rest, s'')

/-- Sharded mutex ring-buffer pool (`ShardedMutexRingBufferPool`). -/
structure ShardedMutexRingBufferPool (σ : Type) where
  shards : List (MutexRingBufferPool σ)

/-- Constructor `NewShardedMutexRingBufferPool`: a nonpositive `numShards`
falls back to `runtime.GOMAXPROCS(0)` (passed in as `gomaxprocs`), and each
shard receives capacity `max(capacity/numShards, 1)`. -/
def NewShardedMutexRingBufferPool {σ : Type} (capacity numShards gomaxprocs : Nat)
    (allocator : σ → testObject × σ) (cleaner : testObject → testObject)
    (s : σ) : ShardedMutexRingBufferPool σ × σ :=
  let n := if numShards = 0 then gomaxprocs else numShards
  let shardCapacity := max (capacity / n) 1
  let (shards, s') :=
    mkShards (fun st => NewMutexRingBufferPool shardCapacity allocator cleaner st) n s
  ({ shards := shards }, s')

/-- Method `ShardedMutexRingBufferPool.Get`: pin, look the shard up, get from
it and stamp the pinned index onto the returned object. -/
def ShardedMutexRingBufferPool.Get {σ : Type} (p : ShardedMutexRingBufferPool σ)
    (pinned : Nat) (s : σ) :
    Option (testObject × ShardedMutexRingBufferPool σ × σ) :=
  match p.shards.get? pinned with
  | none => none
  | some shard =>
      let (obj, shard', s') := shard.Get s
      some ({ obj with shardIndex := pinned },
        { shards := p.shards.set pinned shard' }, s')

/-- Method `ShardedMutexRingBufferPool.Put`: looks the shard up directly at the
object's cached index, with no bounds check. -/
def ShardedMutexRingBufferPool.Put {σ : Type} (p : ShardedMutexRingBufferPool σ)
    (obj : testObject) : Option (ShardedMutexRingBufferPool σ) :=
  if obj.shardIndex < 0 then none
  else
    match p.shards.get? obj.shardIndex.toNat with
    | none => none
    | some shard => some { shards := p.shards.set obj.shardIndex.toNat (shard.Put obj) }

/-- Sharded channel pool (`ShardedChannelBasedPool`). -/
structure ShardedChannelBasedPool (σ : Type) where
  shards : List (ChannelBasedPool σ)

/-- Constructor `NewShardedChannelBasedPool`: the shard capacity is
`capacity / numShards`, bumped to `1` when that quotient is below `1`. -/
def NewShardedChannelBasedPool {σ : Type} (capacity numShards gomaxprocs : Nat)
    (allocator : σ → testObject × σ) (cleaner : testObject → testObject)
    (s : σ) : ShardedChannelBasedPool σ × σ :=
  let n := if numShards = 0 then gomaxprocs else numShards
  let q := capacity / n
  let shardCapacity := if q < 1 then 1 else q
  let (shards, s') :=
    mkShards (fun st => NewChannelBasedPool shardCapacity allocator cleaner st) n s
  ({ shards := shards }, s')

/-- Method `ShardedChannelBasedPool.Get`. -/
def ShardedChannelBasedPool.Get {σ : Type} (p : ShardedChannelBasedPool σ)
    (pinned : Nat) (s : σ) :
    Option (testObject × ShardedChannelBasedPool σ × σ) :=
  match p.shards.get? pinned with
  | none => none
  | some shard =>
      let (obj, shard', s') := shard.Get s
      some ({ obj with shardIndex := pinned },
        { shards := p.shards.set pinned shard' }, s')

/-- Method `ShardedChannelBasedPool.Put`: the only sharded `Put` with a bounds
check — an out-of-range cached index makes the call fall through as a no-op.
An in-range put delegates to the shard's blocking send. -/
def ShardedChannelBasedPool.Put {σ : Type} (p : ShardedChannelBasedPool σ)
    (obj : testObject) : Option (ShardedChannelBasedPool σ) :=
  let shardIndex := obj.shardIndex
  if 0 ≤ shardIndex ∧ shardIndex < (p.shards.length : Int) then
    match p.shards.get? shardIndex.toNat with
    | none => none
    | some shard =>
        match shard.Put obj with
        | none => none
        | some shard' => some { shards := p.shards.set shardIndex.toNat shard' }
  else
    some p

/-- Sharded lock-free pool (`ShardedAtomicBasedPool`). -/
structure ShardedAtomicBasedPool (σ : Type) where
  shards : List (AtomicBasedPool σ)

/-- Constructor `NewShardedAtomicBasedPool`. -/
def NewShardedAtomicBasedPool {σ : Type} (capacity numShards gomaxprocs : Nat)
    (allocator : σ → testObject × σ) (cleaner : testObject → testObject)
    (s : σ) : ShardedAtomicBasedPool σ × σ :=
  let n := if numShards = 0 then gomaxprocs else numShards
  let shardCapacity := max (capacity / n) 1
  let (shards, s') :=
    mkShards (fun st => NewAtomicBasedPool shardCapacity allocator cleaner st) n s
  ({ shards := shards }, s')

/-- Method `ShardedAtomicBasedPool.Get`. -/
def ShardedAtomicBasedPool.Get {σ : Type} (p : ShardedAtomicBasedPool σ)
    (pinned : Nat) (s : σ) :
    Option (testObject × ShardedAtomicBasedPool σ × σ) :=
  match p.shards.get? pinned with
  | none => none
  | some shard =>
      let (obj, shard', s') := shard.Get s
      some ({ obj with shardIndex := pinned },
        { shards := p.shards.set pinned shard' }, s')

/-- Method `ShardedAtomicBasedPool.Put`: looks the shard up directly at the
object's cached index, with no bounds check. -/
def ShardedAtomicBasedPool.Put {σ : Type} (p : ShardedAtomicBasedPool σ)
    (obj : testObject) : Option (ShardedAtomicBasedPool σ) :=
  if obj.shardIndex < 0 then none
  else
    match p.shards.get? obj.shardIndex.toNat with
    | none => none
    | some shard => some { shards := p.shards.set obj.shardIndex.toNat (shard.Put obj) }

/-- Sharded condition-variable pool (`ShardedCondBasedPool`); its shards are
`RingBufferCondPool` segments. -/
structure ShardedCondBasedPool (σ : Type) where
  shards : List (RingBufferCondPool σ)

/-- Constructor `NewShardedCondBasedPool`. -/
def NewShardedCondBasedPool {σ : Type} (capacity numShards gomaxprocs : Nat)
    (allocator : σ → testObject × σ) (cleaner : testObject → testObject)
    (s : σ) : ShardedCondBasedPool σ × σ :=
  let n := if numShards = 0 then gomaxprocs else numShards
  let q := capacity / n
  let shardCapacity := if q < 1 then 1 else q
  let (shards, s') :=
    mkShards (fun st => NewRingBufferCondPool shardCapacity allocator cleaner st) n s
  ({ shards := shards }, s')

/-- Method `ShardedCondBasedPool.Get`: a successful shard get stamps the pinned
index; an empty shard blocks (`none`). -/
def ShardedCondBasedPool.Get {σ : Type} (p : ShardedCondBasedPool σ)
    (pinned : Nat) : Option (testObject × ShardedCondBasedPool σ) :=
  match p.shards.get? pinned with
  | none => none
  | some shard =>
      match shard.Get with
      | none => none
      | some (obj, shard') =>
          some ({ obj with shardIndex := pinned },
            { shards := p.shards.set pinned shard' })

/-- Method `ShardedCondBasedPool.Put`: unguarded shard lookup at the cached
index. -/
def ShardedCondBasedPool.Put {σ : Type} (p : ShardedCondBasedPool σ)
    (obj : testObject) : Option (ShardedCondBasedPool σ) :=
  if obj.shardIndex < 0 then none
  else
    match p.shards.get? obj.shardIndex.toNat with
    | none => none
    | some shard => some { shards := p.shards.set obj.shardIndex.toNat (shard.Put obj) }

/-- Sharded ring-buffer condition pool (`ShardedRingBufferCondPool`); identical
segment type to `ShardedCondBasedPool`. -/
structure ShardedRingBufferCondPool (σ : Type) where
  shards : List (RingBufferCondPool σ)

/-- Constructor `NewShardedRingBufferCondPool`. -/
def NewShardedRingBufferCondPool {σ : Type} (capacity numShards gomaxprocs : Nat)
    (allocator : σ → testObject × σ) (cleaner : testObject → testObject)
    (s : σ) : ShardedRingBufferCondPool σ × σ :=
  let n := if numShards = 0 then gomaxprocs else numShards
  let q := capacity / n
  let shardCapacity := if q < 1 then 1 else q
  let (shards, s') :=
    mkShards (fun st => NewRingBufferCondPool shardCapacity allocator cleaner st) n s
  ({ shards := shards }, s')

/-- Method `ShardedRingBufferCondPool.Get`. -/
def ShardedRingBufferCondPool.Get {σ : Type} (p : ShardedRingBufferCondPool σ)
    (pinned : Nat) : Option (testObject × ShardedRingBufferCondPool σ) :=
  match p.shards.get? pinned with
  | none => none
  | some shard =>
      match shard.Get with
      | none => none
      | some (obj, shard') =>
          some ({ obj with shardIndex := pinned },
            { shards := p.shards.set pinned shard' })

/-- Method `ShardedRingBufferCondPool.Put`: unguarded shard lookup at the
cached index. -/
def ShardedRingBufferCondPool.Put {σ : Type} (p : ShardedRingBufferCondPool σ)
    (obj : testObject) : Option (ShardedRingBufferCondPool σ) :=
  if obj.shardIndex < 0 then none
  else
    match p.shards.get? obj.shardIndex.toNat with
    | none => none
    | some shard => some { shards := p.shards.set obj.shardIndex.toNat (shard.Put obj) }

/-! ## Sequential drivers

Iterated `Get` (with the results collected in call order) and the
`Put(Get())` round trip, as exercised by the testable properties and the
benchmark loops. -/

/-- Iterated `Get` on the mutex ring-buffer pool. -/
def MutexRingBufferPool.GetN {σ : Type} :
    Nat → MutexRingBufferPool σ → σ → List testObject × MutexRingBufferPool σ × σ
  | 0, p, s => ([], p, s)
  | n + 1, p, s =>
      let (obj, p', s') := p.Get s
      let (objs, p'', s'') := MutexRingBufferPool.GetN n p' s'
      (obj :: objs, p'', s'')

/-- Iterated `Get` on the RWMutex ring-buffer pool. -/
def RWMutexRingBufferPool.GetN {σ : Type} :
    Nat → RWMutexRingBufferPool σ → σ → List testObject × RWMutexRingBufferPool σ × σ
  | 0, p, s => ([], p, s)
  | n + 1, p, s =>
      let (obj, p', s') := p.Get s
      let (objs, p'', s'') := RWMutexRingBufferPool.GetN n p' s'
      (obj :: objs, p'', s'')

/-- Iterated `Get` on the channel pool. -/
def ChannelBasedPool.GetN {σ : Type} :
    Nat → ChannelBasedPool σ → σ → List testObject × ChannelBasedPool σ × σ
  | 0, p, s => ([], p, s)
  | n + 1, p, s =>
      let (obj, p', s') := p.Get s
      let (objs, p'', s'') := ChannelBasedPool.GetN n p' s'
      (obj :: objs, p'', s'')

/-- Iterated `Get` on the slice pool. -/
def MutexBasedPool.GetN {σ : Type} :
    Nat → MutexBasedPool σ → σ → List testObject × MutexBasedPool σ × σ
  | 0, p, s => ([], p, s)
  | n + 1, p, s =>
      let (obj, p', s') := p.Get s
      let (objs, p'', s'') := MutexBasedPool.GetN n p' s'
      (obj :: objs, p'', s'')

/-- Iterated `Get` on the lock-free pool. -/
def AtomicBasedPool.GetN {σ : Type} :
    Nat → AtomicBasedPool σ → σ → List testObject × AtomicBasedPool σ × σ
  | 0, p, s => ([], p, s)
  | n + 1, p, s =>
      let (obj, p', s') := p.Get s
      let (objs, p'', s'') := AtomicBasedPool.GetN n p' s'
      (obj :: objs, p'', s'')

/-- Iterated `Get` on the condition-variable slice pool; a blocking call makes
the whole run block. -/
def CondBasedPool.GetN {σ : Type} :
    Nat → CondBasedPool σ → Option (List testObject × CondBasedPool σ)
  | 0, p => some ([], p)
  | n + 1, p =>
      match p.Get with
      | none => none
      | some (obj, p') =>
          match CondBasedPool.GetN n p' with
          | none => none
          | some (objs, p'') => some (obj :: objs, p'')

/-- Iterated `Get` on the condition-variable ring-buffer pool. -/
def RingBufferCondPool.GetN {σ : Type} :
    Nat → RingBufferCondPool σ → Option (List testObject × RingBufferCondPool σ)
  | 0, p => some ([], p)
  | n + 1, p =>
      match p.Get with
      | none => none
      | some (obj, p') =>
          match RingBufferCondPool.GetN n p' with
          | none => none
          | some (objs, p'') => some (obj :: objs, p'')

/-- Iterated `Get` on the sharded lock-free pool, every call pinned to the same
logical processor. -/
def ShardedAtomicBasedPool.GetN {σ : Type} (pinned : Nat) :
    Nat → ShardedAtomicBasedPool σ → σ →
      Option (List testObject × ShardedAtomicBasedPool σ × σ)
  | 0, p, s => some ([], p, s)
  | n + 1, p, s =>
      match p.Get pinned s with
      | none => none
      | some (obj, p', s') =>
          match ShardedAtomicBasedPool.GetN pinned n p' s' with
          | none => none
          | some (objs, p'', s'') => some (obj :: objs, p'', s'')

/-- Single-threaded `Put(Get())` round trip on the mutex ring-buffer pool. -/
def MutexRingBufferPool.RoundTrip {σ : Type} (x : MutexRingBufferPool σ × σ) :
    MutexRingBufferPool σ × σ :=
  let (obj, p', s') := x.1.Get x.2
  (p'.Put obj, s')

/-- Single-threaded `Put(Get())` round trip on the RWMutex ring-buffer pool. -/
def RWMutexRingBufferPool.RoundTrip {σ : Type} (x : RWMutexRingBufferPool σ × σ) :
    RWMutexRingBufferPool σ × σ :=
  let (obj, p', s') := x.1.Get x.2
  (p'.Put obj, s')

/-- Single-threaded `Put(Get())` round trip on the lock-free pool. -/
def AtomicBasedPool.RoundTrip {σ : Type} (x : AtomicBasedPool σ × σ) :
    AtomicBasedPool σ × σ :=
  let (obj, p', s') := x.1.Get x.2
  (p'.Put obj, s')

/-- Effective capacity of a mutex ring-buffer segment. -/
def MutexRingBufferPool.effCapacity {σ : Type} (p : MutexRingBufferPool σ) : Nat :=
  p.ringBuffer.capacity

/-- Sum of the per-segment effective capacities of a sharded mutex pool. -/
def ShardedMutexRingBufferPool.capacitySum {σ : Type}
    (p : ShardedMutexRingBufferPool σ) : Nat :=
  (p.shards.map MutexRingBufferPool.effCapacity).sum

/-- Effective capacity of a channel segment. -/
def ChannelBasedPool.effCapacity {σ : Type} (p : ChannelBasedPool σ) : Nat :=
  p.capacity

/-- Sum of the per-segment effective capacities of a sharded channel pool. -/
def ShardedChannelBasedPool.capacitySum {σ : Type}
    (p : ShardedChannelBasedPool σ) : Nat :=
  (p.shards.map ChannelBasedPool.effCapacity).sum

/-! ## Arbitrary operation sequences on a ring buffer -/

/-- A single ring-buffer operation. -/
inductive RBOp (T : Type) where
  | push (item : T)
  | pop

/-- Apply one operation, keeping the resulting buffer state. -/
def RingBuffer.applyOp {T : Type} [Inhabited T] (rb : RingBuffer T) :
    RBOp T → RingBuffer T
  | RBOp.push item => (rb.Push item).2
  | RBOp.pop => (rb.Pop).2.2

/-- Apply a sequence of operations left to right. -/
def RingBuffer.applyOps {T : Type} [Inhabited T] (rb : RingBuffer T)
    (ops : List (RBOp T)) : RingBuffer T :=
  ops.foldl RingBuffer.applyOp rb

/-- Concrete two-slot lock-free pool with fill index 1, used by a witness. -/
def witnessAtomicPool : AtomicBasedPool Nat :=
  { objects := [mkObj 0, mkObj 1]
    index := 1
    capacity := 2
    allocator := countingAllocator
    cleaner := testCleaner }

/-- Concrete full capacity-1 mutex ring-buffer pool, used by a witness. -/
def witnessMutexPoolFull : MutexRingBufferPool Nat :=
  { ringBuffer := { buffer := [mkObj 3], head := 0, tail := 0, size := 1, capacity := 1 }
    allocator := countingAllocator
    cleaner := testCleaner }

/-- Concrete drained capacity-1 mutex ring-buffer pool, used by a witness. -/
def witnessMutexPoolDrained : MutexRingBufferPool Nat :=
  { ringBuffer := { buffer := [mkObj 3], head := 0, tail := 0, size := 0, capacity := 1 }
    allocator := countingAllocator
    cleaner := testCleaner }

/-- Concrete empty capacity-1 channel pool, used by a witness. -/
def witnessChanPoolEmpty : ChannelBasedPool Nat :=
  { objects := []
    capacity := 1
    allocator := countingAllocator
    cleaner := testCleaner }

/-- Concrete empty capacity-2 mutex ring-buffer pool, used by a witness. -/
def witnessMutexPoolEmpty2 : MutexRingBufferPool Nat :=
  { ringBuffer := NewRingBuffer testObject 2
    allocator := countingAllocator
    cleaner := testCleaner }

/-- Concrete empty capacity-2 channel pool, used by a witness. -/
def witnessChanPoolEmpty2 : ChannelBasedPool Nat :=
  { objects := []
    capacity := 2
    allocator := countingAllocator
    cleaner := testCleaner }

/-- Concrete empty capacity-2 lock-free pool, used by a witness. -/
def witnessAtomicPoolEmpty2 : AtomicBasedPool Nat :=
  { objects := [mkObj 0, mkObj 1]
    index := 0
    capacity := 2
    allocator := countingAllocator
    cleaner := testCleaner }

/-- Concrete empty capacity-2 slice pool, used by a witness. -/
def witnessSlicePoolEmpty2 : MutexBasedPool Nat :=
  { objects := []
    capacity := 2
    allocator := countingAllocator
    cleaner := testCleaner }

/-! ## Theorems -/

/-! ### List helpers -/

theorem getD_set_self {α : Type} {l : List α} {n : Nat} (h : n < l.length)
    (a d : α) : (l.set n a).getD n d = a := by
  induction l generalizing n with
  | nil => simp at h
  | cons x xs ih =>
    cases n with
    | zero => simp [List.getD]
    | succ m =>
      simp only [List.set]
      have hm : m < xs.length := by simpa using h
      simpa [List.getD] using ih hm

theorem getD_set_ne {α : Type} {l : List α} {m n : Nat} (h : m ≠ n)
    (a d : α) : (l.set n a).getD m d = l.getD m d := by
  induction l generalizing m n with
  | nil => simp
  | cons x xs ih =>
    cases n with
    | zero =>
      cases m with
      | zero => exact absurd rfl h
      | succ k => simp [List.getD]
    | succ n' =>
      cases m with
      | zero => simp [List.getD]
      | succ k =>
        simp only [List.set]
        have : k ≠ n' := fun hk => h (by simp [hk])
        simpa [List.getD] using ih this

theorem toList_length {T : Type} [Inhabited T] (rb : RingBuffer T) :
    rb.toList.length = rb.size := by
  simp [RingBuffer.toList]

/-! ### Push and Pop characterisations -/

theorem Push_of_full {T : Type} (rb : RingBuffer T) (a : T)
    (h : rb.size ≥ rb.capacity) : rb.Push a = (false, rb) := by
  simp [RingBuffer.Push, h]

theorem Push_of_not_full {T : Type} (rb : RingBuffer T) (a : T)
    (h : rb.size < rb.capacity) :
    rb.Push a = (true, { rb with
      buffer := rb.buffer.set rb.tail a
      tail := (rb.tail + 1) % rb.capacity
      size := rb.size + 1 }) := by
  simp [RingBuffer.Push, Nat.not_le.mpr h]

theorem Pop_of_empty {T : Type} [Inhabited T] (rb : RingBuffer T)
    (h : rb.size = 0) : rb.Pop = (default, false, rb) := by
  simp [RingBuffer.Pop, h]

theorem Pop_of_not_empty {T : Type} [Inhabited T] (rb : RingBuffer T)
    (h : 0 < rb.size) :
    rb.Pop = (rb.buffer.getD rb.head default, true,
      { rb with head := (rb.head + 1) % rb.capacity, size := rb.size - 1 }) := by
  simp [RingBuffer.Pop, Nat.not_le.mpr h]

theorem mod_shift_ne {cap head i size : Nat} (hi : i < size) (hsz : size < cap) :
    (head + i) % cap ≠ (head + size) % cap := by
  intro h
  have h2 : Nat.ModEq cap i size := Nat.ModEq.add_left_cancel' head h
  have hi' : i < cap := lt_trans hi hsz
  have : i = size := by
    have h3 : i % cap = size % cap := h2
    rwa [Nat.mod_eq_of_lt hi', Nat.mod_eq_of_lt hsz] at h3
  omega

theorem Inv_new {T : Type} [Inhabited T] (C : Nat) (hC : 0 < C) :
    (NewRingBuffer T C).Inv := by
  refine ⟨Nat.zero_le _, hC, hC, by simp [NewRingBuffer], by simp [NewRingBuffer]⟩

theorem toList_new {T : Type} [Inhabited T] (C : Nat) :
    (NewRingBuffer T C).toList = [] := by
  simp [NewRingBuffer, RingBuffer.toList]

theorem Inv_push {T : Type} {rb : RingBuffer T} (hInv : rb.Inv)
    (hlt : rb.size < rb.capacity) (a : T) : ((rb.Push a).2).Inv := by
  obtain ⟨hsc, hh, ht, hlen, hlink⟩ := hInv
  rw [Push_of_not_full rb a hlt]
  refine ⟨by show rb.size + 1 ≤ rb.capacity; omega, hh, ?_, by simpa using hlen, ?_⟩
  · exact Nat.mod_lt _ (by omega)
  · show (rb.tail + 1) % rb.capacity = (rb.head + (rb.size + 1)) % rb.capacity
    rw [hlink, Nat.mod_add_mod, Nat.add_assoc]

theorem Push_toList {T : Type} [Inhabited T] {rb : RingBuffer T} (hInv : rb.Inv)
    (hlt : rb.size < rb.capacity) (a : T) :
    ((rb.Push a).2).toList = rb.toList ++ [a] := by
  obtain ⟨hsc, hh, ht, hlen, hlink⟩ := hInv
  rw [Push_of_not_full rb a hlt]
  simp only [RingBuffer.toList]
  rw [List.range_succ, List.map_append]
  congr 1
  · apply List.map_congr_left
    intro i hi
    have hi' : i < rb.size := List.mem_range.mp hi
    apply getD_set_ne
    rw [hlink]
    exact mod_shift_ne hi' hlt
  · simp only [List.map_cons, List.map_nil]
    congr 1
    rw [← hlink]
    exact getD_set_self (by rw [hlen]; exact ht) a default

theorem Inv_pop {T : Type} [Inhabited T] {rb : RingBuffer T} (hInv : rb.Inv)
    (hpos : 0 < rb.size) : ((rb.Pop).2.2).Inv := by
  obtain ⟨hsc, hh, ht, hlen, hlink⟩ := hInv
  rw [Pop_of_not_empty rb hpos]
  refine ⟨by show rb.size - 1 ≤ rb.capacity; omega, Nat.mod_lt _ (by omega), ht, hlen, ?_⟩
  show rb.tail = ((rb.head + 1) % rb.capacity + (rb.size - 1)) % rb.capacity
  rw [hlink, Nat.mod_add_mod]
  congr 1
  omega

theorem toList_pop_decomp {T : Type} [Inhabited T] {rb : RingBuffer T}
    (hInv : rb.Inv) (hpos : 0 < rb.size) :
    rb.toList = (rb.Pop).1 :: ((rb.Pop).2.2).toList := by
  obtain ⟨hsc, hh, ht, hlen, hlink⟩ := hInv
  rw [Pop_of_not_empty rb hpos]
  simp only [RingBuffer.toList]
  have hk : rb.size = (rb.size - 1) + 1 := by omega
  conv_lhs => rw [hk]
  rw [List.range_succ_eq_map, List.map_cons, List.map_map]
  congr 1
  · simp [Nat.mod_eq_of_lt hh]
  · apply List.map_congr_left
    intro i hi
    show rb.buffer.getD ((rb.head + (i + 1)) % rb.capacity) default
        = rb.buffer.getD (((rb.head + 1) % rb.capacity + i) % rb.capacity) default
    rw [Nat.mod_add_mod]
    congr 2
    omega

theorem Pop_preserves_rest {T : Type} [Inhabited T] (rb : RingBuffer T) :
    ((rb.Pop).2.2).capacity = rb.capacity ∧ ((rb.Pop).2.2).buffer = rb.buffer ∧
    ((rb.Pop).2.2).tail = rb.tail := by
  by_cases h : rb.size ≤ 0
  · simp [RingBuffer.Pop, h]
  · simp [RingBuffer.Pop, h]

theorem Push_size {T : Type} (rb : RingBuffer T) (a : T)
    (hlt : rb.size < rb.capacity) : ((rb.Push a).2).size = rb.size + 1 := by
  rw [Push_of_not_full rb a hlt]

theorem Push_capacity {T : Type} (rb : RingBuffer T) (a : T) :
    ((rb.Push a).2).capacity = rb.capacity := by
  by_cases h : rb.size ≥ rb.capacity
  · simp [RingBuffer.Push, h]
  · simp [RingBuffer.Push, h]

theorem Pop_size {T : Type} [Inhabited T] (rb : RingBuffer T)
    (hpos : 0 < rb.size) : ((rb.Pop).2.2).size = rb.size - 1 := by
  rw [Pop_of_not_empty rb hpos]

/-! ## Pre-population lemmas -/

theorem prepopList_succ {σ : Type} (alloc : σ → testObject × σ) (k : Nat) (s : σ) :
    prepopList alloc (k + 1) s =
      ((alloc s).1 :: (prepopList alloc k (alloc s).2).1,
        (prepopList alloc k (alloc s).2).2) := rfl

theorem prepopRB_succ {σ : Type} (alloc : σ → testObject × σ) (k : Nat)
    (rb : RingBuffer testObject) (s : σ) :
    prepopRB alloc (k + 1) rb s =
      prepopRB alloc k ((rb.Push (alloc s).1).2) (alloc s).2 := rfl

theorem prepopChan_succ {σ : Type} (alloc : σ → testObject × σ) (k : Nat)
    (q : List testObject) (s : σ) :
    prepopChan alloc (k + 1) q s =
      prepopChan alloc k (q ++ [(alloc s).1]) (alloc s).2 := rfl

theorem prepopSlice_succ {σ : Type} (alloc : σ → testObject × σ) (k : Nat)
    (l : List testObject) (s : σ) :
    prepopSlice alloc (k + 1) l s =
      prepopSlice alloc k (l ++ [(alloc s).1]) (alloc s).2 := rfl

theorem prepopList_counting (n s : Nat) :
    prepopList countingAllocator n s = ((List.range' s n).map mkObj, s + n) := by
  induction n generalizing s with
  | zero => simp [prepopList]
  | succ k ih =>
    rw [prepopList_succ]
    show (mkObj s :: (prepopList countingAllocator k (s + 1)).1,
      (prepopList countingAllocator k (s + 1)).2) = _
    rw [ih]
    rw [List.range'_succ]
    simp
    omega

theorem prepopRB_spec {σ : Type} (alloc : σ → testObject × σ) (n : Nat)
    (rb : RingBuffer testObject) (s : σ) (hInv : rb.Inv)
    (hroom : rb.size + n ≤ rb.capacity) :
    (prepopRB alloc n rb s).2 = (prepopList alloc n s).2 ∧
    ((prepopRB alloc n rb s).1).toList = rb.toList ++ (prepopList alloc n s).1 ∧
    ((prepopRB alloc n rb s).1).Inv ∧
    ((prepopRB alloc n rb s).1).size = rb.size + n ∧
    ((prepopRB alloc n rb s).1).capacity = rb.capacity := by
  induction n generalizing rb s with
  | zero => simpa [prepopRB, prepopList] using hInv
  | succ k ih =>
    have hlt : rb.size < rb.capacity := by omega
    have hInv' := Inv_push hInv hlt (alloc s).1
    have hsz := Push_size rb (alloc s).1 hlt
    have hcap := Push_capacity rb (alloc s).1
    have hroom' : ((rb.Push (alloc s).1).2).size + k ≤ ((rb.Push (alloc s).1).2).capacity := by
      rw [hsz, hcap]; omega
    obtain ⟨ih1, ih2, ih3, ih4, ih5⟩ := ih ((rb.Push (alloc s).1).2) (alloc s).2 hInv' hroom'
    rw [prepopRB_succ, prepopList_succ]
    refine ⟨ih1, ?_, ih3, by rw [ih4, hsz]; omega, by rw [ih5, hcap]⟩
    rw [ih2, Push_toList hInv hlt]
    simp

theorem prepopChan_spec {σ : Type} (alloc : σ → testObject × σ) (n : Nat)
    (q : List testObject) (s : σ) :
    prepopChan alloc n q s = (q ++ (prepopList alloc n s).1, (prepopList alloc n s).2) := by
  induction n generalizing q s with
  | zero => simp [prepopChan, prepopList]
  | succ k ih =>
    rw [prepopChan_succ, prepopList_succ, ih]
    simp

theorem prepopSlice_spec {σ : Type} (alloc : σ → testObject × σ) (n : Nat)
    (l : List testObject) (s : σ) :
    prepopSlice alloc n l s = (l ++ (prepopList alloc n s).1, (prepopList alloc n s).2) := by
  induction n generalizing l s with
  | zero => simp [prepopSlice, prepopList]
  | succ k ih =>
    rw [prepopSlice_succ, prepopList_succ, ih]
    simp

/-! ## Get equations -/

theorem MutexGet_pop {σ : Type} (p : MutexRingBufferPool σ) (s : σ)
    (hpos : 0 < p.ringBuffer.size) :
    p.Get s = ((p.ringBuffer.Pop).1,
      { p with ringBuffer := (p.ringBuffer.Pop).2.2 }, s) := by
  simp [MutexRingBufferPool.Get, Pop_of_not_empty _ hpos]

theorem MutexGet_empty {σ : Type} (p : MutexRingBufferPool σ) (s : σ)
    (h : p.ringBuffer.size = 0) :
    p.Get s = ((p.allocator s).1, p, (p.allocator s).2) := by
  simp [MutexRingBufferPool.Get, Pop_of_empty _ h]

theorem RWMutexGet_pop {σ : Type} (p : RWMutexRingBufferPool σ) (s : σ)
    (hpos : 0 < p.ringBuffer.size) :
    p.Get s = ((p.ringBuffer.Pop).1,
      { p with ringBuffer := (p.ringBuffer.Pop).2.2 }, s) := by
  simp [RWMutexRingBufferPool.Get, Pop_of_not_empty _ hpos]

theorem RWMutexGet_empty {σ : Type} (p : RWMutexRingBufferPool σ) (s : σ)
    (h : p.ringBuffer.size = 0) :
    p.Get s = ((p.allocator s).1, p, (p.allocator s).2) := by
  simp [RWMutexRingBufferPool.Get, Pop_of_empty _ h]

theorem ChanGet_cons {σ : Type} (p : ChannelBasedPool σ) (s : σ)
    (obj : testObject) (rest : List testObject) (h : p.objects = obj :: rest) :
    p.Get s = (obj, { p with objects := rest }, s) := by
  simp [ChannelBasedPool.Get, h]

theorem ChanGet_empty {σ : Type} (p : ChannelBasedPool σ) (s : σ)
    (h : p.objects = []) :
    p.Get s = ((p.allocator s).1, p, (p.allocator s).2) := by
  simp [ChannelBasedPool.Get, h]

theorem SliceGet_last {σ : Type} (p : MutexBasedPool σ) (s : σ)
    (h : p.objects.length ≠ 0) :
    p.Get s = (p.objects.getD (p.objects.length - 1) default,
      { p with objects := p.objects.dropLast }, s) := by
  simp [MutexBasedPool.Get, h]

theorem SliceGet_empty {σ : Type} (p : MutexBasedPool σ) (s : σ)
    (h : p.objects.length = 0) :
    p.Get s = ((p.allocator s).1, p, (p.allocator s).2) := by
  simp [MutexBasedPool.Get, h]

theorem AtomicGet_pos {σ : Type} (p : AtomicBasedPool σ) (s : σ)
    (h : 0 < p.index) :
    p.Get s = (p.objects.getD (p.index - 1).toNat default,
      { p with index := p.index - 1 }, s) := by
  have h' : ¬ p.index ≤ 0 := by omega
  simp [AtomicBasedPool.Get, h']

theorem AtomicGet_nonpos {σ : Type} (p : AtomicBasedPool σ) (s : σ)
    (h : p.index ≤ 0) :
    p.Get s = ((p.allocator s).1, p, (p.allocator s).2) := by
  simp [AtomicBasedPool.Get, h]

theorem CondRBGet_pop {σ : Type} (p : RingBufferCondPool σ)
    (hpos : 0 < p.ringBuffer.size) :
    p.Get = some ((p.ringBuffer.Pop).1,
      { p with ringBuffer := (p.ringBuffer.Pop).2.2 }) := by
  have h : p.ringBuffer.IsEmpty = false := by
    simp [RingBuffer.IsEmpty]; omega
  simp [RingBufferCondPool.Get, h]

theorem CondSliceGet_last {σ : Type} (p : CondBasedPool σ)
    (h : p.objects.length ≠ 0) :
    p.Get = some (p.objects.getD (p.objects.length - 1) default,
      { p with objects := p.objects.dropLast }) := by
  simp [CondBasedPool.Get, h]

/-! ## Drain lemmas: iterated Get on a stocked pool -/

theorem MutexGetN_succ {σ : Type} (k : Nat) (p : MutexRingBufferPool σ) (s : σ) :
    MutexRingBufferPool.GetN (k + 1) p s =
      ((p.Get s).1 ::
        (MutexRingBufferPool.GetN k (p.Get s).2.1 (p.Get s).2.2).1,
       (MutexRingBufferPool.GetN k (p.Get s).2.1 (p.Get s).2.2).2.1,
       (MutexRingBufferPool.GetN k (p.Get s).2.1 (p.Get s).2.2).2.2) := rfl

theorem MutexGetN_drain {σ : Type} (n : Nat) :
    ∀ (p : MutexRingBufferPool σ) (s : σ), p.ringBuffer.Inv →
      n ≤ p.ringBuffer.size →
    (MutexRingBufferPool.GetN n p s).1 = p.ringBuffer.toList.take n ∧
    (MutexRingBufferPool.GetN n p s).2.2 = s ∧
    ((MutexRingBufferPool.GetN n p s).2.1).ringBuffer.Inv ∧
    ((MutexRingBufferPool.GetN n p s).2.1).ringBuffer.size
      = p.ringBuffer.size - n := by
  induction n with
  | zero =>
    intro p s hInv _
    exact ⟨by simp [MutexRingBufferPool.GetN], rfl, hInv, by simp [MutexRingBufferPool.GetN]⟩
  | succ k ih =>
    intro p s hInv hn
    have hpos : 0 < p.ringBuffer.size := by omega
    rw [MutexGetN_succ, MutexGet_pop p s hpos]
    have hInv' : ({ p with ringBuffer := (p.ringBuffer.Pop).2.2 } :
        MutexRingBufferPool σ).ringBuffer.Inv := Inv_pop hInv hpos
    have hsz := Pop_size p.ringBuffer hpos
    have hn' : k ≤ (p.ringBuffer.Pop).2.2.size := by omega
    obtain ⟨ih1, ih2, ih3, ih4⟩ :=
      ih { p with ringBuffer := (p.ringBuffer.Pop).2.2 } s hInv' hn'
    refine ⟨?_, ih2, ih3, ?_⟩
    · rw [toList_pop_decomp hInv hpos, List.take_succ_cons]
      simpa using ih1
    · rw [ih4]
      simp only []
      omega

theorem RWMutexGetN_succ {σ : Type} (k : Nat) (p : RWMutexRingBufferPool σ) (s : σ) :
    RWMutexRingBufferPool.GetN (k + 1) p s =
      ((p.Get s).1 ::
        (RWMutexRingBufferPool.GetN k (p.Get s).2.1 (p.Get s).2.2).1,
       (RWMutexRingBufferPool.GetN k (p.Get s).2.1 (p.Get s).2.2).2.1,
       (RWMutexRingBufferPool.GetN k (p.Get s).2.1 (p.Get s).2.2).2.2) := rfl

theorem RWMutexGetN_drain {σ : Type} (n : Nat) :
    ∀ (p : RWMutexRingBufferPool σ) (s : σ), p.ringBuffer.Inv →
      n ≤ p.ringBuffer.size →
    (RWMutexRingBufferPool.GetN n p s).1 = p.ringBuffer.toList.take n ∧
    (RWMutexRingBufferPool.GetN n p s).2.2 = s ∧
    ((RWMutexRingBufferPool.GetN n p s).2.1).ringBuffer.Inv ∧
    ((RWMutexRingBufferPool.GetN n p s).2.1).ringBuffer.size
      = p.ringBuffer.size - n := by
  induction n with
  | zero =>
    intro p s hInv _
    exact ⟨by simp [RWMutexRingBufferPool.GetN], rfl, hInv,
      by simp [RWMutexRingBufferPool.GetN]⟩
  | succ k ih =>
    intro p s hInv hn
    have hpos : 0 < p.ringBuffer.size := by omega
    rw [RWMutexGetN_succ, RWMutexGet_pop p s hpos]
    have hInv' : ({ p with ringBuffer := (p.ringBuffer.Pop).2.2 } :
        RWMutexRingBufferPool σ).ringBuffer.Inv := Inv_pop hInv hpos
    have hsz := Pop_size p.ringBuffer hpos
    have hn' : k ≤ (p.ringBuffer.Pop).2.2.size := by omega
    obtain ⟨ih1, ih2, ih3, ih4⟩ :=
      ih { p with ringBuffer := (p.ringBuffer.Pop).2.2 } s hInv' hn'
    refine ⟨?_, ih2, ih3, ?_⟩
    · rw [toList_pop_decomp hInv hpos, List.take_succ_cons]
      simpa using ih1
    · rw [ih4]
      simp only []
      omega

theorem ChanGetN_succ {σ : Type} (k : Nat) (p : ChannelBasedPool σ) (s : σ) :
    ChannelBasedPool.GetN (k + 1) p s =
      ((p.Get s).1 ::
        (ChannelBasedPool.GetN k (p.Get s).2.1 (p.Get s).2.2).1,
       (ChannelBasedPool.GetN k (p.Get s).2.1 (p.Get s).2.2).2.1,
       (ChannelBasedPool.GetN k (p.Get s).2.1 (p.Get s).2.2).2.2) := rfl

theorem ChanGetN_drain {σ : Type} (n : Nat) :
    ∀ (p : ChannelBasedPool σ) (s : σ), n ≤ p.objects.length →
    (ChannelBasedPool.GetN n p s).1 = p.objects.take n ∧
    (ChannelBasedPool.GetN n p s).2.2 = s ∧
    ((ChannelBasedPool.GetN n p s).2.1).objects = p.objects.drop n ∧
    ((ChannelBasedPool.GetN n p s).2.1).capacity = p.capacity := by
  induction n with
  | zero =>
    intro p s _
    exact ⟨by simp [ChannelBasedPool.GetN], rfl,
      by simp [ChannelBasedPool.GetN], rfl⟩
  | succ k ih =>
    intro p s hn
    cases hobj : p.objects with
    | nil => rw [hobj] at hn; simp at hn
    | cons o rest =>
      rw [ChanGetN_succ, ChanGet_cons p s o rest hobj]
      have hn' : k ≤ rest.length := by
        have := hn; rw [hobj] at this; simpa using this
      obtain ⟨ih1, ih2, ih3, ih4⟩ := ih { p with objects := rest } s hn'
      refine ⟨?_, ih2, ?_, ih4⟩
      · rw [List.take_succ_cons]
        simpa using ih1
      · rw [List.drop_succ_cons]
        simpa using ih3

theorem getLast_eq_getD {α : Type} [Inhabited α] (l : List α) (h : l ≠ []) :
    l.getLast h = l.getD (l.length - 1) default := by
  rw [List.getLast_eq_getElem]
  have hl : l.length - 1 < l.length := by
    have : 0 < l.length := List.length_pos.mpr h
    omega
  simp [List.getD, List.getElem?_eq_getElem hl]

theorem reverse_eq_getD_cons {α : Type} [Inhabited α] (l : List α) (h : l ≠ []) :
    l.reverse = l.getD (l.length - 1) default :: l.dropLast.reverse := by
  conv_lhs => rw [← List.dropLast_append_getLast h]
  rw [List.reverse_append, getLast_eq_getD l h]
  simp

theorem SliceGetN_succ {σ : Type} (k : Nat) (p : MutexBasedPool σ) (s : σ) :
    MutexBasedPool.GetN (k + 1) p s =
      ((p.Get s).1 ::
        (MutexBasedPool.GetN k (p.Get s).2.1 (p.Get s).2.2).1,
       (MutexBasedPool.GetN k (p.Get s).2.1 (p.Get s).2.2).2.1,
       (MutexBasedPool.GetN k (p.Get s).2.1 (p.Get s).2.2).2.2) := rfl

theorem SliceGetN_drain {σ : Type} (n : Nat) :
    ∀ (p : MutexBasedPool σ) (s : σ), n ≤ p.objects.length →
    (MutexBasedPool.GetN n p s).1 = p.objects.reverse.take n ∧
    (MutexBasedPool.GetN n p s).2.2 = s ∧
    ((MutexBasedPool.GetN n p s).2.1).objects
      = p.objects.take (p.objects.length - n) ∧
    ((MutexBasedPool.GetN n p s).2.1).capacity = p.capacity := by
  induction n with
  | zero =>
    intro p s _
    exact ⟨by simp [MutexBasedPool.GetN], rfl,
      by simp [MutexBasedPool.GetN], rfl⟩
  | succ k ih =>
    intro p s hn
    have hne : p.objects.length ≠ 0 := by omega
    rw [SliceGetN_succ, SliceGet_last p s hne]
    have hlen : p.objects.dropLast.length = p.objects.length - 1 := by
      simp
    have hn' : k ≤ p.objects.dropLast.length := by omega
    obtain ⟨ih1, ih2, ih3, ih4⟩ := ih { p with objects := p.objects.dropLast } s hn'
    have hnil : p.objects ≠ [] := by
      intro hcontra; rw [hcontra] at hne; simp at hne
    refine ⟨?_, ih2, ?_, ih4⟩
    · rw [reverse_eq_getD_cons p.objects hnil, List.take_succ_cons]
      simpa using ih1
    · have h3 : ((MutexBasedPool.GetN k
          ({ p with objects := p.objects.dropLast } : MutexBasedPool σ) s).2.1).objects
          = p.objects.dropLast.take (p.objects.dropLast.length - k) := ih3
      rw [h3, hlen, List.dropLast_eq_take, List.take_take]
      congr 1
      omega

theorem take_drop_reverse_step {α : Type} [Inhabited α] (l : List α) (k n : Nat)
    (hk : k ≤ l.length) (hn : n + 1 ≤ k) :
    ((l.take k).drop (k - (n + 1))).reverse
      = l.getD (k - 1) default :: ((l.take (k - 1)).drop (k - 1 - n)).reverse := by
  have hk1 : k - 1 < l.length := by omega
  have htake : l.take k = l.take (k - 1) ++ [l.getD (k - 1) default] := by
    have hsucc : k = (k - 1) + 1 := by omega
    conv_lhs => rw [hsucc]
    rw [List.take_succ]
    simp [List.getD, List.getElem?_eq_getElem hk1]
  have hidx : k - (n + 1) = k - 1 - n := by omega
  rw [htake, hidx, List.drop_append_eq_append_drop]
  have hlen : (l.take (k - 1)).length = k - 1 := by
    rw [List.length_take]; omega
  rw [hlen]
  have h2 : k - 1 - n - (k - 1) = 0 := by omega
  rw [h2]
  simp

theorem AtomicGetN_succ {σ : Type} (k : Nat) (p : AtomicBasedPool σ) (s : σ) :
    AtomicBasedPool.GetN (k + 1) p s =
      ((p.Get s).1 ::
        (AtomicBasedPool.GetN k (p.Get s).2.1 (p.Get s).2.2).1,
       (AtomicBasedPool.GetN k (p.Get s).2.1 (p.Get s).2.2).2.1,
       (AtomicBasedPool.GetN k (p.Get s).2.1 (p.Get s).2.2).2.2) := rfl

theorem AtomicGetN_drain {σ : Type} (n : Nat) :
    ∀ (p : AtomicBasedPool σ) (s : σ) (k : Nat), p.index = (k : Int) →
      k ≤ p.objects.length → n ≤ k →
    (AtomicBasedPool.GetN n p s).1 = ((p.objects.take k).drop (k - n)).reverse ∧
    (AtomicBasedPool.GetN n p s).2.2 = s ∧
    ((AtomicBasedPool.GetN n p s).2.1).objects = p.objects ∧
    ((AtomicBasedPool.GetN n p s).2.1).index = ((k - n : Nat) : Int) ∧
    ((AtomicBasedPool.GetN n p s).2.1).capacity = p.capacity := by
  induction n with
  | zero =>
    intro p s k hidx hk _
    refine ⟨?_, rfl, rfl, by simpa [AtomicBasedPool.GetN] using hidx, rfl⟩
    have : (p.objects.take k).drop (k - 0) = [] := by
      apply List.drop_eq_nil_of_le
      rw [List.length_take]
      omega
    simp [AtomicBasedPool.GetN, this]
  | succ m ih =>
    intro p s k hidx hk hn
    have hpos : 0 < p.index := by rw [hidx]; omega
    rw [AtomicGetN_succ, AtomicGet_pos p s hpos]
    rw [hidx]
    have h1 : ((k : Int) - 1).toNat = k - 1 := by omega
    have h2 : (k : Int) - 1 = ((k - 1 : Nat) : Int) := by omega
    rw [h1, h2]
    have hk' : k - 1 ≤ ({ p with index := ((k - 1 : Nat) : Int) } :
        AtomicBasedPool σ).objects.length := by
      simp only []
      omega
    have hm' : m ≤ k - 1 := by omega
    obtain ⟨ih1, ih2, ih3, ih4, ih5⟩ :=
      ih { p with index := ((k - 1 : Nat) : Int) } s (k - 1) rfl hk' hm'
    refine ⟨?_, ih2, ih3, ?_, ih5⟩
    · rw [take_drop_reverse_step p.objects k m hk hn]
      simp only [] at ih1
      rw [ih1]
    · rw [ih4]
      omega

theorem CondRBGetN_succ_of_get {σ : Type} (k : Nat) (p p₁ : RingBufferCondPool σ)
    (obj : testObject) (h : p.Get = some (obj, p₁)) :
    RingBufferCondPool.GetN (k + 1) p =
      match RingBufferCondPool.GetN k p₁ with
      | none => none
      | some (objs, p₂) => some (obj :: objs, p₂) := by
  show (match p.Get with
    | none => none
    | some (obj, p') =>
        match RingBufferCondPool.GetN k p' with
        | none => none
        | some (objs, p'') => some (obj :: objs, p'')) = _
  rw [h]

theorem CondRBGetN_drain {σ : Type} (n : Nat) :
    ∀ (p : RingBufferCondPool σ), p.ringBuffer.Inv → n ≤ p.ringBuffer.size →
    ∃ p' : RingBufferCondPool σ,
      RingBufferCondPool.GetN n p = some (p.ringBuffer.toList.take n, p') ∧
      p'.ringBuffer.Inv ∧ p'.ringBuffer.size = p.ringBuffer.size - n := by
  induction n with
  | zero =>
    intro p hInv _
    exact ⟨p, by simp [RingBufferCondPool.GetN], hInv, by omega⟩
  | succ k ih =>
    intro p hInv hn
    have hpos : 0 < p.ringBuffer.size := by omega
    have hget := CondRBGet_pop p hpos
    have hInv' : ({ p with ringBuffer := (p.ringBuffer.Pop).2.2 } :
        RingBufferCondPool σ).ringBuffer.Inv := Inv_pop hInv hpos
    have hsz := Pop_size p.ringBuffer hpos
    have hn' : k ≤ ({ p with ringBuffer := (p.ringBuffer.Pop).2.2 } :
        RingBufferCondPool σ).ringBuffer.size := by
      simp only []
      omega
    obtain ⟨p', hEq, hInv'', hsz'⟩ :=
      ih { p with ringBuffer := (p.ringBuffer.Pop).2.2 } hInv' hn'
    refine ⟨p', ?_, hInv'', by simp only [] at hsz'; omega⟩
    rw [CondRBGetN_succ_of_get k p _ _ hget, hEq]
    rw [toList_pop_decomp hInv hpos, List.take_succ_cons]

theorem CondSliceGetN_succ_of_get {σ : Type} (k : Nat) (p p₁ : CondBasedPool σ)
    (obj : testObject) (h : p.Get = some (obj, p₁)) :
    CondBasedPool.GetN (k + 1) p =
      match CondBasedPool.GetN k p₁ with
      | none => none
      | some (objs, p₂) => some (obj :: objs, p₂) := by
  show (match p.Get with
    | none => none
    | some (obj, p') =>
        match CondBasedPool.GetN k p' with
        | none => none
        | some (objs, p'') => some (obj :: objs, p'')) = _
  rw [h]

theorem CondSliceGetN_drain {σ : Type} (n : Nat) :
    ∀ (p : CondBasedPool σ), n ≤ p.objects.length →
    ∃ p' : CondBasedPool σ,
      CondBasedPool.GetN n p = some (p.objects.reverse.take n, p') ∧
      p'.objects = p.objects.take (p.objects.length - n) ∧
      p'.capacity = p.capacity := by
  induction n with
  | zero =>
    intro p _
    exact ⟨p, by simp [CondBasedPool.GetN], by simp, rfl⟩
  | succ k ih =>
    intro p hn
    have hne : p.objects.length ≠ 0 := by omega
    have hnil : p.objects ≠ [] := by
      intro hcontra; rw [hcontra] at hne; simp at hne
    have hget := CondSliceGet_last p hne
    have hn' : k ≤ ({ p with objects := p.objects.dropLast } :
        CondBasedPool σ).objects.length := by
      simp only [List.length_dropLast]
      omega
    obtain ⟨p', hEq, hobj', hcap'⟩ :=
      ih { p with objects := p.objects.dropLast } hn'
    refine ⟨p', ?_, ?_, hcap'⟩
    · rw [CondSliceGetN_succ_of_get k p _ _ hget, hEq]
      rw [reverse_eq_getD_cons p.objects hnil, List.take_succ_cons]
    · rw [hobj']
      simp only [List.length_dropLast]
      rw [List.dropLast_eq_take, List.take_take]
      congr 1
      omega

/-! ## Freshly constructed pools under the counting allocator -/

theorem NewMutex_eq {σ : Type} (C : Nat) (alloc : σ → testObject × σ)
    (cl : testObject → testObject) (s : σ) :
    NewMutexRingBufferPool C alloc cl s =
      ({ ringBuffer := (prepopRB alloc C (NewRingBuffer testObject C) s).1,
         allocator := alloc, cleaner := cl },
       (prepopRB alloc C (NewRingBuffer testObject C) s).2) := rfl

theorem NewRWMutex_eq {σ : Type} (C : Nat) (alloc : σ → testObject × σ)
    (cl : testObject → testObject) (s : σ) :
    NewRWMutexRingBufferPool C alloc cl s =
      ({ ringBuffer := (prepopRB alloc C (NewRingBuffer testObject C) s).1,
         allocator := alloc, cleaner := cl },
       (prepopRB alloc C (NewRingBuffer testObject C) s).2) := rfl

theorem NewChan_eq {σ : Type} (C : Nat) (alloc : σ → testObject × σ)
    (cl : testObject → testObject) (s : σ) :
    NewChannelBasedPool C alloc cl s =
      ({ objects := (prepopChan alloc C [] s).1, capacity := C,
         allocator := alloc, cleaner := cl },
       (prepopChan alloc C [] s).2) := rfl

theorem NewSlice_eq {σ : Type} (C : Nat) (alloc : σ → testObject × σ)
    (cl : testObject → testObject) (s : σ) :
    NewMutexBasedPool C alloc cl s =
      ({ objects := (prepopSlice alloc C [] s).1, capacity := C,
         allocator := alloc, cleaner := cl },
       (prepopSlice alloc C [] s).2) := rfl

theorem NewAtomic_eq {σ : Type} (C : Nat) (alloc : σ → testObject × σ)
    (cl : testObject → testObject) (s : σ) :
    NewAtomicBasedPool C alloc cl s =
      ({ objects := (prepopList alloc C s).1, index := C, capacity := C,
         allocator := alloc, cleaner := cl },
       (prepopList alloc C s).2) := rfl

theorem NewCondSlice_eq {σ : Type} (C : Nat) (alloc : σ → testObject × σ)
    (cl : testObject → testObject) (s : σ) :
    NewCondBasedPool C alloc cl s =
      ({ objects := (prepopSlice alloc C [] s).1, capacity := C,
         allocator := alloc, cleaner := cl },
       (prepopSlice alloc C [] s).2) := rfl

theorem NewCondRB_eq {σ : Type} (C : Nat) (alloc : σ → testObject × σ)
    (cl : testObject → testObject) (s : σ) :
    NewRingBufferCondPool C alloc cl s =
      ({ ringBuffer := (prepopRB alloc C (NewRingBuffer testObject C) s).1,
         allocator := alloc, cleaner := cl },
       (prepopRB alloc C (NewRingBuffer testObject C) s).2) := rfl

theorem prepopRB_fresh_counting (C : Nat) (hC : 0 < C) :
    (prepopRB countingAllocator C (NewRingBuffer testObject C) 0).2 = C ∧
    ((prepopRB countingAllocator C (NewRingBuffer testObject C) 0).1).toList
      = (List.range' 0 C).map mkObj ∧
    ((prepopRB countingAllocator C (NewRingBuffer testObject C) 0).1).Inv ∧
    ((prepopRB countingAllocator C (NewRingBuffer testObject C) 0).1).size = C := by
  have hInv0 := Inv_new (T := testObject) C hC
  have hroom : (NewRingBuffer testObject C).size + C
      ≤ (NewRingBuffer testObject C).capacity := by
    simp [NewRingBuffer]
  obtain ⟨hs, htl, hInv, hsz, _⟩ :=
    prepopRB_spec countingAllocator C (NewRingBuffer testObject C) 0 hInv0 hroom
  rw [prepopList_counting] at hs htl
  rw [toList_new] at htl
  refine ⟨by simpa using hs, by simpa using htl, hInv, ?_⟩
  rw [hsz]
  simp [NewRingBuffer]

theorem mkObj_injective : Function.Injective mkObj := by
  intro a b h
  have := congrArg testObject.ID h
  simpa [mkObj] using this

theorem nodup_map_mkObj (s n : Nat) : ((List.range' s n).map mkObj).Nodup :=
  List.Nodup.map mkObj_injective (List.nodup_range' s n)

theorem mutex_c8 (C : Nat) :
    (NewMutexRingBufferPool C countingAllocator testCleaner 0).2 = C ∧
    (MutexRingBufferPool.GetN C
        (NewMutexRingBufferPool C countingAllocator testCleaner 0).1
        (NewMutexRingBufferPool C countingAllocator testCleaner 0).2).1
      = (List.range' 0 C).map mkObj ∧
    (MutexRingBufferPool.GetN C
        (NewMutexRingBufferPool C countingAllocator testCleaner 0).1
        (NewMutexRingBufferPool C countingAllocator testCleaner 0).2).2.2 = C := by
  rcases Nat.eq_zero_or_pos C with h0 | hC
  · subst h0
    exact ⟨rfl, rfl, rfl⟩
  · obtain ⟨hs, htl, hInv, hsz⟩ := prepopRB_fresh_counting C hC
    rw [NewMutex_eq]
    obtain ⟨g1, g2, _, _⟩ := MutexGetN_drain C
      ({ ringBuffer := (prepopRB countingAllocator C (NewRingBuffer testObject C) 0).1,
         allocator := countingAllocator, cleaner := testCleaner } : MutexRingBufferPool Nat)
      ((prepopRB countingAllocator C (NewRingBuffer testObject C) 0).2)
      hInv (by rw [hsz])
    refine ⟨hs, ?_, by rw [g2, hs]⟩
    rw [g1]
    show ((prepopRB countingAllocator C (NewRingBuffer testObject C) 0).1).toList.take C = _
    rw [htl]
    apply List.take_of_length_le
    simp

theorem rwmutex_c8 (C : Nat) :
    (NewRWMutexRingBufferPool C countingAllocator testCleaner 0).2 = C ∧
    (RWMutexRingBufferPool.GetN C
        (NewRWMutexRingBufferPool C countingAllocator testCleaner 0).1
        (NewRWMutexRingBufferPool C countingAllocator testCleaner 0).2).1
      = (List.range' 0 C).map mkObj ∧
    (RWMutexRingBufferPool.GetN C
        (NewRWMutexRingBufferPool C countingAllocator testCleaner 0).1
        (NewRWMutexRingBufferPool C countingAllocator testCleaner 0).2).2.2 = C := by
  rcases Nat.eq_zero_or_pos C with h0 | hC
  · subst h0
    exact ⟨rfl, rfl, rfl⟩
  · obtain ⟨hs, htl, hInv, hsz⟩ := prepopRB_fresh_counting C hC
    rw [NewRWMutex_eq]
    obtain ⟨g1, g2, _, _⟩ := RWMutexGetN_drain C
      ({ ringBuffer := (prepopRB countingAllocator C (NewRingBuffer testObject C) 0).1,
         allocator := countingAllocator, cleaner := testCleaner } : RWMutexRingBufferPool Nat)
      ((prepopRB countingAllocator C (NewRingBuffer testObject C) 0).2)
      hInv (by rw [hsz])
    refine ⟨hs, ?_, by rw [g2, hs]⟩
    rw [g1]
    show ((prepopRB countingAllocator C (NewRingBuffer testObject C) 0).1).toList.take C = _
    rw [htl]
    apply List.take_of_length_le
    simp

theorem chan_c8 (C : Nat) :
    (NewChannelBasedPool C countingAllocator testCleaner 0).2 = C ∧
    (ChannelBasedPool.GetN C
        (NewChannelBasedPool C countingAllocator testCleaner 0).1
        (NewChannelBasedPool C countingAllocator testCleaner 0).2).1
      = (List.range' 0 C).map mkObj ∧
    (ChannelBasedPool.GetN C
        (NewChannelBasedPool C countingAllocator testCleaner 0).1
        (NewChannelBasedPool C countingAllocator testCleaner 0).2).2.2 = C := by
  rw [NewChan_eq]
  have hq := prepopChan_spec countingAllocator C [] 0
  rw [prepopList_counting] at hq
  rw [hq]
  simp only [List.nil_append]
  have hlen : C ≤ ((List.range' 0 C).map mkObj).length := by simp
  obtain ⟨g1, g2, _, _⟩ := ChanGetN_drain C
    ({ objects := (List.range' 0 C).map mkObj, capacity := C,
       allocator := countingAllocator, cleaner := testCleaner } : ChannelBasedPool Nat)
    (0 + C) hlen
  refine ⟨by omega, ?_, by rw [g2]; omega⟩
  rw [g1]
  show ((List.range' 0 C).map mkObj).take C = _
  apply List.take_of_length_le
  simp

theorem slice_c8 (C : Nat) :
    (NewMutexBasedPool C countingAllocator testCleaner 0).2 = C ∧
    (MutexBasedPool.GetN C
        (NewMutexBasedPool C countingAllocator testCleaner 0).1
        (NewMutexBasedPool C countingAllocator testCleaner 0).2).1
      = ((List.range' 0 C).map mkObj).reverse ∧
    (MutexBasedPool.GetN C
        (NewMutexBasedPool C countingAllocator testCleaner 0).1
        (NewMutexBasedPool C countingAllocator testCleaner 0).2).2.2 = C := by
  rw [NewSlice_eq]
  have hq := prepopSlice_spec countingAllocator C [] 0
  rw [prepopList_counting] at hq
  rw [hq]
  simp only [List.nil_append]
  have hlen : C ≤ ((List.range' 0 C).map mkObj).length := by simp
  obtain ⟨g1, g2, _, _⟩ := SliceGetN_drain C
    ({ objects := (List.range' 0 C).map mkObj, capacity := C,
       allocator := countingAllocator, cleaner := testCleaner } : MutexBasedPool Nat)
    (0 + C) hlen
  refine ⟨by omega, ?_, by rw [g2]; omega⟩
  rw [g1]
  show ((List.range' 0 C).map mkObj).reverse.take C = _
  apply List.take_of_length_le
  simp

theorem atomic_c8 (C : Nat) :
    (NewAtomicBasedPool C countingAllocator testCleaner 0).2 = C ∧
    (AtomicBasedPool.GetN C
        (NewAtomicBasedPool C countingAllocator testCleaner 0).1
        (NewAtomicBasedPool C countingAllocator testCleaner 0).2).1
      = ((List.range' 0 C).map mkObj).reverse ∧
    (AtomicBasedPool.GetN C
        (NewAtomicBasedPool C countingAllocator testCleaner 0).1
        (NewAtomicBasedPool C countingAllocator testCleaner 0).2).2.2 = C := by
  rw [NewAtomic_eq]
  rw [prepopList_counting]
  simp only []
  have hlen : C ≤ ((List.range' 0 C).map mkObj).length := by simp
  obtain ⟨g1, g2, _, _, _⟩ := AtomicGetN_drain C
    ({ objects := (List.range' 0 C).map mkObj, index := C, capacity := C,
       allocator := countingAllocator, cleaner := testCleaner } : AtomicBasedPool Nat)
    (0 + C) C rfl hlen (le_refl C)
  refine ⟨by omega, ?_, by rw [g2]; omega⟩
  rw [g1]
  show ((((List.range' 0 C).map mkObj).take C).drop (C - C)).reverse = _
  rw [Nat.sub_self, List.drop_zero]
  congr 1
  apply List.take_of_length_le
  simp

theorem condslice_c8 (C : Nat) :
    (NewCondBasedPool C countingAllocator testCleaner 0).2 = C ∧
    ∃ q : CondBasedPool Nat,
      CondBasedPool.GetN C (NewCondBasedPool C countingAllocator testCleaner 0).1
        = some (((List.range' 0 C).map mkObj).reverse, q) := by
  rw [NewCondSlice_eq]
  have hq := prepopSlice_spec countingAllocator C [] 0
  rw [prepopList_counting] at hq
  rw [hq]
  simp only [List.nil_append]
  have hlen : C ≤ ((List.range' 0 C).map mkObj).length := by simp
  obtain ⟨p', hEq, _, _⟩ := CondSliceGetN_drain C
    ({ objects := (List.range' 0 C).map mkObj, capacity := C,
       allocator := countingAllocator, cleaner := testCleaner } : CondBasedPool Nat)
    hlen
  refine ⟨by omega, p', ?_⟩
  rw [hEq]
  congr 2
  apply List.take_of_length_le
  simp

theorem condrb_c8 (C : Nat) :
    (NewRingBufferCondPool C countingAllocator testCleaner 0).2 = C ∧
    ∃ q : RingBufferCondPool Nat,
      RingBufferCondPool.GetN C (NewRingBufferCondPool C countingAllocator testCleaner 0).1
        = some ((List.range' 0 C).map mkObj, q) := by
  rcases Nat.eq_zero_or_pos C with h0 | hC
  · subst h0
    exact ⟨rfl, _, rfl⟩
  · obtain ⟨hs, htl, hInv, hsz⟩ := prepopRB_fresh_counting C hC
    rw [NewCondRB_eq]
    obtain ⟨p', hEq, _, _⟩ := CondRBGetN_drain C
      ({ ringBuffer := (prepopRB countingAllocator C (NewRingBuffer testObject C) 0).1,
         allocator := countingAllocator, cleaner := testCleaner } : RingBufferCondPool Nat)
      hInv (by rw [hsz])
    refine ⟨hs, p', ?_⟩
    rw [hEq]
    congr 2
    show ((prepopRB countingAllocator C (NewRingBuffer testObject C) 0).1).toList.take C = _
    rw [htl]
    apply List.take_of_length_le
    simp

/-! ## Claim theorems -/

/-- Claim C8, counterexample. The claim quantifies over every pool variant,
including the sharded ones (`ShardedAtomicBasedPool.Get` is cited). For the
sharded lock-free pool with nominal capacity 4 and 2 shards, construction makes
4 pre-population allocator calls, but 4 consecutive `Get` calls pinned to
shard 0 exhaust that shard's 2 slots and invoke the allocator 2 further times:
the counter ends at 6, not 4. -/
theorem c8_counterexample :
    (NewShardedAtomicBasedPool 4 2 1 countingAllocator testCleaner 0).2 = 4 ∧
    (ShardedAtomicBasedPool.GetN 0 4
        (NewShardedAtomicBasedPool 4 2 1 countingAllocator testCleaner 0).1
        (NewShardedAtomicBasedPool 4 2 1 countingAllocator testCleaner 0).2).map
      (fun r => r.2.2) = some 6 := by
  constructor <;> rfl

/-- Claim C8, amended: for every single-segment pool variant constructed with
capacity `C`, performing `C` consecutive `Get` calls with no intervening `Put`
on the freshly constructed pool returns `C` pairwise-distinct objects and
invokes the allocator zero times beyond the `C` pre-population calls made at
construction (the allocation counter starts at 0, reaches `C` during
construction and is still `C` after the `C` Gets; the condition-variable
variants cannot allocate during `Get` at all). The sharded wrappers do not
satisfy this: see the counterexample. -/
theorem c8_amended : ∀ C : Nat,
    ((NewMutexRingBufferPool C countingAllocator testCleaner 0).2 = C ∧
     (MutexRingBufferPool.GetN C
        (NewMutexRingBufferPool C countingAllocator testCleaner 0).1
        (NewMutexRingBufferPool C countingAllocator testCleaner 0).2).2.2 = C ∧
     (MutexRingBufferPool.GetN C
        (NewMutexRingBufferPool C countingAllocator testCleaner 0).1
        (NewMutexRingBufferPool C countingAllocator testCleaner 0).2).1.Nodup ∧
     (MutexRingBufferPool.GetN C
        (NewMutexRingBufferPool C countingAllocator testCleaner 0).1
        (NewMutexRingBufferPool C countingAllocator testCleaner 0).2).1.length = C) ∧
    ((NewRWMutexRingBufferPool C countingAllocator testCleaner 0).2 = C ∧
     (RWMutexRingBufferPool.GetN C
        (NewRWMutexRingBufferPool C countingAllocator testCleaner 0).1
        (NewRWMutexRingBufferPool C countingAllocator testCleaner 0).2).2.2 = C ∧
     (RWMutexRingBufferPool.GetN C
        (NewRWMutexRingBufferPool C countingAllocator testCleaner 0).1
        (NewRWMutexRingBufferPool C countingAllocator testCleaner 0).2).1.Nodup ∧
     (RWMutexRingBufferPool.GetN C
        (NewRWMutexRingBufferPool C countingAllocator testCleaner 0).1
        (NewRWMutexRingBufferPool C countingAllocator testCleaner 0).2).1.length = C) ∧
    ((NewChannelBasedPool C countingAllocator testCleaner 0).2 = C ∧
     (ChannelBasedPool.GetN C
        (NewChannelBasedPool C countingAllocator testCleaner 0).1
        (NewChannelBasedPool C countingAllocator testCleaner 0).2).2.2 = C ∧
     (ChannelBasedPool.GetN C
        (NewChannelBasedPool C countingAllocator testCleaner 0).1
        (NewChannelBasedPool C countingAllocator testCleaner 0).2).1.Nodup ∧
     (ChannelBasedPool.GetN C
        (NewChannelBasedPool C countingAllocator testCleaner 0).1
        (NewChannelBasedPool C countingAllocator testCleaner 0).2).1.length = C) ∧
    ((NewMutexBasedPool C countingAllocator testCleaner 0).2 = C ∧
     (MutexBasedPool.GetN C
        (NewMutexBasedPool C countingAllocator testCleaner 0).1
        (NewMutexBasedPool C countingAllocator testCleaner 0).2).2.2 = C ∧
     (MutexBasedPool.GetN C
        (NewMutexBasedPool C countingAllocator testCleaner 0).1
        (NewMutexBasedPool C countingAllocator testCleaner 0).2).1.Nodup ∧
     (MutexBasedPool.GetN C
        (NewMutexBasedPool C countingAllocator testCleaner 0).1
        (NewMutexBasedPool C countingAllocator testCleaner 0).2).1.length = C) ∧
    ((NewAtomicBasedPool C countingAllocator testCleaner 0).2 = C ∧
     (AtomicBasedPool.GetN C
        (NewAtomicBasedPool C countingAllocator testCleaner 0).1
        (NewAtomicBasedPool C countingAllocator testCleaner 0).2).2.2 = C ∧
     (AtomicBasedPool.GetN C
        (NewAtomicBasedPool C countingAllocator testCleaner 0).1
        (NewAtomicBasedPool C countingAllocator testCleaner 0).2).1.Nodup ∧
     (AtomicBasedPool.GetN C
        (NewAtomicBasedPool C countingAllocator testCleaner 0).1
        (NewAtomicBasedPool C countingAllocator testCleaner 0).2).1.length = C) ∧
    ((NewCondBasedPool C countingAllocator testCleaner 0).2 = C ∧
     ∃ objs : List testObject, ∃ q : CondBasedPool Nat,
       CondBasedPool.GetN C (NewCondBasedPool C countingAllocator testCleaner 0).1
         = some (objs, q) ∧ objs.Nodup ∧ objs.length = C) ∧
    ((NewRingBufferCondPool C countingAllocator testCleaner 0).2 = C ∧
     ∃ objs : List testObject, ∃ q : RingBufferCondPool Nat,
       RingBufferCondPool.GetN C (NewRingBufferCondPool C countingAllocator testCleaner 0).1
         = some (objs, q) ∧ objs.Nodup ∧ objs.length = C) := by
  intro C
  obtain ⟨m1, m2, m3⟩ := mutex_c8 C
  obtain ⟨r1, r2, r3⟩ := rwmutex_c8 C
  obtain ⟨ch1, ch2, ch3⟩ := chan_c8 C
  obtain ⟨sl1, sl2, sl3⟩ := slice_c8 C
  obtain ⟨a1, a2, a3⟩ := atomic_c8 C
  obtain ⟨cs1, csq, csEq⟩ := condslice_c8 C
  obtain ⟨cr1, crq, crEq⟩ := condrb_c8 C
  refine ⟨⟨m1, m3, ?_, ?_⟩, ⟨r1, r3, ?_, ?_⟩, ⟨ch1, ch3, ?_, ?_⟩,
    ⟨sl1, sl3, ?_, ?_⟩, ⟨a1, a3, ?_, ?_⟩,
    ⟨cs1, ((List.range' 0 C).map mkObj).reverse, csq, csEq, ?_, ?_⟩,
    ⟨cr1, (List.range' 0 C).map mkObj, crq, crEq, ?_, ?_⟩⟩
  · rw [m2]; exact nodup_map_mkObj 0 C
  · rw [m2]; simp
  · rw [r2]; exact nodup_map_mkObj 0 C
  · rw [r2]; simp
  · rw [ch2]; exact nodup_map_mkObj 0 C
  · rw [ch2]; simp
  · rw [sl2]; exact (List.nodup_reverse).mpr (nodup_map_mkObj 0 C)
  · rw [sl2]; simp
  · rw [a2]; exact (List.nodup_reverse).mpr (nodup_map_mkObj 0 C)
  · rw [a2]; simp
  · exact (List.nodup_reverse).mpr (nodup_map_mkObj 0 C)
  · simp
  · exact nodup_map_mkObj 0 C
  · simp

/-! ## Put equations and round-trip lemmas -/

theorem MutexPut_eq {σ : Type} (p : MutexRingBufferPool σ) (obj : testObject) :
    p.Put obj = { p with ringBuffer := (p.ringBuffer.Push obj).2 } := rfl

theorem RWMutexPut_eq {σ : Type} (p : RWMutexRingBufferPool σ) (obj : testObject) :
    p.Put obj = { p with ringBuffer := (p.ringBuffer.Push obj).2 } := rfl

theorem AtomicPut_full {σ : Type} (p : AtomicBasedPool σ) (obj : testObject)
    (h : p.index ≥ p.capacity) : p.Put obj = p := by
  simp [AtomicBasedPool.Put, h]

theorem AtomicPut_room {σ : Type} (p : AtomicBasedPool σ) (obj : testObject)
    (h : p.index < p.capacity) :
    p.Put obj = { p with
      objects := p.objects.set p.index.toNat obj
      index := p.index + 1 } := by
  have h' : ¬ p.index ≥ p.capacity := by omega
  simp [AtomicBasedPool.Put, h']

theorem MutexRoundTrip_full {σ : Type} (x : MutexRingBufferPool σ × σ)
    (h : x.1.ringBuffer.size = x.1.ringBuffer.capacity) :
    (MutexRingBufferPool.RoundTrip x).1.ringBuffer.size
      = (MutexRingBufferPool.RoundTrip x).1.ringBuffer.capacity ∧
    (MutexRingBufferPool.RoundTrip x).1.ringBuffer.capacity
      = x.1.ringBuffer.capacity := by
  rcases Nat.eq_zero_or_pos x.1.ringBuffer.capacity with h0 | hpos
  · have hsz : x.1.ringBuffer.size = 0 := by omega
    unfold MutexRingBufferPool.RoundTrip
    rw [MutexGet_empty x.1 x.2 hsz]
    dsimp only
    rw [MutexPut_eq, Push_of_full _ _ (by omega)]
    exact ⟨h, rfl⟩
  · have hszpos : 0 < x.1.ringBuffer.size := by omega
    unfold MutexRingBufferPool.RoundTrip
    rw [MutexGet_pop x.1 x.2 hszpos]
    dsimp only
    rw [MutexPut_eq]
    have hsz' := Pop_size x.1.ringBuffer hszpos
    have hcap' := (Pop_preserves_rest x.1.ringBuffer).1
    have hlt : (x.1.ringBuffer.Pop).2.2.size < (x.1.ringBuffer.Pop).2.2.capacity := by
      omega
    rw [Push_of_not_full _ _ hlt]
    dsimp only
    constructor <;> omega

theorem RWMutexRoundTrip_full {σ : Type} (x : RWMutexRingBufferPool σ × σ)
    (h : x.1.ringBuffer.size = x.1.ringBuffer.capacity) :
    (RWMutexRingBufferPool.RoundTrip x).1.ringBuffer.size
      = (RWMutexRingBufferPool.RoundTrip x).1.ringBuffer.capacity ∧
    (RWMutexRingBufferPool.RoundTrip x).1.ringBuffer.capacity
      = x.1.ringBuffer.capacity := by
  rcases Nat.eq_zero_or_pos x.1.ringBuffer.capacity with h0 | hpos
  · have hsz : x.1.ringBuffer.size = 0 := by omega
    unfold RWMutexRingBufferPool.RoundTrip
    rw [RWMutexGet_empty x.1 x.2 hsz]
    dsimp only
    rw [RWMutexPut_eq, Push_of_full _ _ (by omega)]
    exact ⟨h, rfl⟩
  · have hszpos : 0 < x.1.ringBuffer.size := by omega
    unfold RWMutexRingBufferPool.RoundTrip
    rw [RWMutexGet_pop x.1 x.2 hszpos]
    dsimp only
    rw [RWMutexPut_eq]
    have hsz' := Pop_size x.1.ringBuffer hszpos
    have hcap' := (Pop_preserves_rest x.1.ringBuffer).1
    have hlt : (x.1.ringBuffer.Pop).2.2.size < (x.1.ringBuffer.Pop).2.2.capacity := by
      omega
    rw [Push_of_not_full _ _ hlt]
    dsimp only
    constructor <;> omega

theorem AtomicRoundTrip_full {σ : Type} (x : AtomicBasedPool σ × σ)
    (h : x.1.index = x.1.capacity) :
    (AtomicBasedPool.RoundTrip x).1.index
      = (AtomicBasedPool.RoundTrip x).1.capacity ∧
    (AtomicBasedPool.RoundTrip x).1.capacity = x.1.capacity := by
  rcases le_or_lt x.1.capacity 0 with h0 | hpos
  · unfold AtomicBasedPool.RoundTrip
    rw [AtomicGet_nonpos x.1 x.2 (by omega)]
    dsimp only
    rw [AtomicPut_full _ _ (by omega)]
    exact ⟨h, rfl⟩
  · unfold AtomicBasedPool.RoundTrip
    rw [AtomicGet_pos x.1 x.2 (by omega)]
    dsimp only
    rw [AtomicPut_room _ _ (by show x.1.index - 1 < x.1.capacity; omega)]
    refine ⟨?_, rfl⟩
    show x.1.index - 1 + 1 = x.1.capacity
    omega

theorem MutexIter_full {σ : Type} (n : Nat) :
    ∀ x : MutexRingBufferPool σ × σ,
      x.1.ringBuffer.size = x.1.ringBuffer.capacity →
    ((MutexRingBufferPool.RoundTrip)^[n] x).1.ringBuffer.size
      = ((MutexRingBufferPool.RoundTrip)^[n] x).1.ringBuffer.capacity ∧
    ((MutexRingBufferPool.RoundTrip)^[n] x).1.ringBuffer.capacity
      = x.1.ringBuffer.capacity := by
  induction n with
  | zero => intro x h; exact ⟨h, rfl⟩
  | succ k ih =>
    intro x h
    rw [Function.iterate_succ_apply]
    obtain ⟨h1, h2⟩ := MutexRoundTrip_full x h
    obtain ⟨ih1, ih2⟩ := ih (MutexRingBufferPool.RoundTrip x) h1
    exact ⟨ih1, by rw [ih2, h2]⟩

theorem RWMutexIter_full {σ : Type} (n : Nat) :
    ∀ x : RWMutexRingBufferPool σ × σ,
      x.1.ringBuffer.size = x.1.ringBuffer.capacity →
    ((RWMutexRingBufferPool.RoundTrip)^[n] x).1.ringBuffer.size
      = ((RWMutexRingBufferPool.RoundTrip)^[n] x).1.ringBuffer.capacity ∧
    ((RWMutexRingBufferPool.RoundTrip)^[n] x).1.ringBuffer.capacity
      = x.1.ringBuffer.capacity := by
  induction n with
  | zero => intro x h; exact ⟨h, rfl⟩
  | succ k ih =>
    intro x h
    rw [Function.iterate_succ_apply]
    obtain ⟨h1, h2⟩ := RWMutexRoundTrip_full x h
    obtain ⟨ih1, ih2⟩ := ih (RWMutexRingBufferPool.RoundTrip x) h1
    exact ⟨ih1, by rw [ih2, h2]⟩

theorem AtomicIter_full {σ : Type} (n : Nat) :
    ∀ x : AtomicBasedPool σ × σ, x.1.index = x.1.capacity →
    ((AtomicBasedPool.RoundTrip)^[n] x).1.index
      = ((AtomicBasedPool.RoundTrip)^[n] x).1.capacity ∧
    ((AtomicBasedPool.RoundTrip)^[n] x).1.capacity = x.1.capacity := by
  induction n with
  | zero => intro x h; exact ⟨h, rfl⟩
  | succ k ih =>
    intro x h
    rw [Function.iterate_succ_apply]
    obtain ⟨h1, h2⟩ := AtomicRoundTrip_full x h
    obtain ⟨ih1, ih2⟩ := ih (AtomicBasedPool.RoundTrip x) h1
    exact ⟨ih1, by rw [ih2, h2]⟩

theorem NewMutex_full {σ : Type} (C : Nat) (alloc : σ → testObject × σ)
    (cl : testObject → testObject) (s : σ) :
    (NewMutexRingBufferPool C alloc cl s).1.ringBuffer.size = C ∧
    (NewMutexRingBufferPool C alloc cl s).1.ringBuffer.capacity = C := by
  rcases Nat.eq_zero_or_pos C with h0 | hC
  · subst h0
    exact ⟨rfl, rfl⟩
  · rw [NewMutex_eq]
    obtain ⟨_, _, _, hsz, hcap⟩ := prepopRB_spec alloc C (NewRingBuffer testObject C) s
      (Inv_new C hC) (by simp [NewRingBuffer])
    refine ⟨?_, ?_⟩
    · show (prepopRB alloc C (NewRingBuffer testObject C) s).1.size = C
      rw [hsz]; simp [NewRingBuffer]
    · show (prepopRB alloc C (NewRingBuffer testObject C) s).1.capacity = C
      rw [hcap]; simp [NewRingBuffer]

theorem NewRWMutex_full {σ : Type} (C : Nat) (alloc : σ → testObject × σ)
    (cl : testObject → testObject) (s : σ) :
    (NewRWMutexRingBufferPool C alloc cl s).1.ringBuffer.size = C ∧
    (NewRWMutexRingBufferPool C alloc cl s).1.ringBuffer.capacity = C := by
  rcases Nat.eq_zero_or_pos C with h0 | hC
  · subst h0
    exact ⟨rfl, rfl⟩
  · rw [NewRWMutex_eq]
    obtain ⟨_, _, _, hsz, hcap⟩ := prepopRB_spec alloc C (NewRingBuffer testObject C) s
      (Inv_new C hC) (by simp [NewRingBuffer])
    refine ⟨?_, ?_⟩
    · show (prepopRB alloc C (NewRingBuffer testObject C) s).1.size = C
      rw [hsz]; simp [NewRingBuffer]
    · show (prepopRB alloc C (NewRingBuffer testObject C) s).1.capacity = C
      rw [hcap]; simp [NewRingBuffer]

/-- Claim C7: for the exclusive-lock, shared/exclusive-lock and lock-free
variants, any number of single-threaded `Put(Get())` round trips on a freshly
constructed pool leaves the pool occupancy unchanged at its initial value
(`size = C` for the ring-buffer pools, fill index `= C` for the lock-free
pool). -/
theorem c7_roundtrip_occupancy : ∀ {σ : Type} (C : Nat)
    (alloc : σ → testObject × σ) (cl : testObject → testObject) (s : σ) (n : Nat),
    ((MutexRingBufferPool.RoundTrip)^[n]
        (NewMutexRingBufferPool C alloc cl s)).1.ringBuffer.size = C ∧
    ((RWMutexRingBufferPool.RoundTrip)^[n]
        (NewRWMutexRingBufferPool C alloc cl s)).1.ringBuffer.size = C ∧
    ((AtomicBasedPool.RoundTrip)^[n]
        (NewAtomicBasedPool C alloc cl s)).1.index = (C : Int) := by
  intro σ C alloc cl s n
  refine ⟨?_, ?_, ?_⟩
  · obtain ⟨hsz, hcap⟩ := NewMutex_full C alloc cl s
    obtain ⟨h1, h2⟩ := MutexIter_full n (NewMutexRingBufferPool C alloc cl s)
      (by rw [hsz, hcap])
    rw [h1, h2, hcap]
  · obtain ⟨hsz, hcap⟩ := NewRWMutex_full C alloc cl s
    obtain ⟨h1, h2⟩ := RWMutexIter_full n (NewRWMutexRingBufferPool C alloc cl s)
      (by rw [hsz, hcap])
    rw [h1, h2, hcap]
  · obtain ⟨h1, h2⟩ := AtomicIter_full n (NewAtomicBasedPool C alloc cl s) rfl
    rw [h1, h2]
    rfl

/-! ## Shard construction lemmas -/

theorem mkShards_length {σ α : Type} (new : σ → α × σ) (n : Nat) :
    ∀ s : σ, ((mkShards new n s).1).length = n := by
  induction n with
  | zero => intro s; rfl
  | succ k ih =>
    intro s
    show ((new s).1 :: (mkShards new k (new s).2).1).length = k + 1
    simp [ih]

theorem mkShards_forall {σ α : Type} (new : σ → α × σ) (Q : α → Prop)
    (hQ : ∀ s, Q (new s).1) (n : Nat) :
    ∀ s : σ, ∀ x ∈ (mkShards new n s).1, Q x := by
  induction n with
  | zero => intro s x hx; simp [mkShards] at hx
  | succ k ih =>
    intro s x hx
    have : x ∈ (new s).1 :: (mkShards new k (new s).2).1 := hx
    rcases List.mem_cons.mp this with h | h
    · rw [h]; exact hQ s
    · exact ih (new s).2 x h

theorem sum_map_const {α : Type} (l : List α) (f : α → Nat) (c : Nat)
    (h : ∀ x ∈ l, f x = c) : (l.map f).sum = l.length * c := by
  induction l with
  | nil => simp
  | cons x xs ih =>
    simp only [List.map_cons, List.sum_cons, List.length_cons]
    rw [h x (by simp), ih (fun y hy => h y (by simp [hy]))]
    ring

theorem NewShardedMutex_eq {σ : Type} (C numShards gomaxprocs : Nat)
    (alloc : σ → testObject × σ) (cl : testObject → testObject) (s : σ)
    (h : 1 ≤ numShards) :
    NewShardedMutexRingBufferPool C numShards gomaxprocs alloc cl s =
      ({ shards := (mkShards
          (fun st => NewMutexRingBufferPool (max (C / numShards) 1) alloc cl st)
          numShards s).1 },
       (mkShards
          (fun st => NewMutexRingBufferPool (max (C / numShards) 1) alloc cl st)
          numShards s).2) := by
  have hne : ¬ numShards = 0 := by omega
  simp [NewShardedMutexRingBufferPool, hne]

theorem NewShardedChan_eq {σ : Type} (C numShards gomaxprocs : Nat)
    (alloc : σ → testObject × σ) (cl : testObject → testObject) (s : σ)
    (h : 1 ≤ numShards) :
    NewShardedChannelBasedPool C numShards gomaxprocs alloc cl s =
      ({ shards := (mkShards
          (fun st => NewChannelBasedPool
            (if C / numShards < 1 then 1 else C / numShards) alloc cl st)
          numShards s).1 },
       (mkShards
          (fun st => NewChannelBasedPool
            (if C / numShards < 1 then 1 else C / numShards) alloc cl st)
          numShards s).2) := by
  have hne : ¬ numShards = 0 := by omega
  simp [NewShardedChannelBasedPool, hne]

theorem chanShardCap_eq_max (C numShards : Nat) :
    (if C / numShards < 1 then 1 else C / numShards) = max (C / numShards) 1 := by
  rcases Nat.lt_or_ge (C / numShards) 1 with h | h
  · simp [h]; omega
  · simp [Nat.not_lt.mpr h]; omega

/-- Claim C6: a sharded pool built with total capacity `C` and
`numShards >= 1` has exactly `numShards` segments, each constructed with
capacity `max(C / numShards, 1)` (integer division); when `C >= numShards`
the per-segment capacities sum to at least `numShards` and at most `C`.
Shown for the two cited constructors, `NewShardedMutexRingBufferPool` and
`NewShardedChannelBasedPool`. -/
theorem c6_shard_capacities : ∀ {σ : Type} (C numShards gomaxprocs : Nat)
    (alloc : σ → testObject × σ) (cl : testObject → testObject) (s : σ),
    1 ≤ numShards → numShards ≤ C →
    ((NewShardedMutexRingBufferPool C numShards gomaxprocs alloc cl s).1.shards.length
        = numShards ∧
     (∀ shard ∈ (NewShardedMutexRingBufferPool C numShards gomaxprocs alloc cl s).1.shards,
        shard.effCapacity = max (C / numShards) 1) ∧
     numShards ≤ (NewShardedMutexRingBufferPool C numShards gomaxprocs alloc cl s).1.capacitySum ∧
     (NewShardedMutexRingBufferPool C numShards gomaxprocs alloc cl s).1.capacitySum ≤ C) ∧
    ((NewShardedChannelBasedPool C numShards gomaxprocs alloc cl s).1.shards.length
        = numShards ∧
     (∀ shard ∈ (NewShardedChannelBasedPool C numShards gomaxprocs alloc cl s).1.shards,
        shard.effCapacity = max (C / numShards) 1) ∧
     numShards ≤ (NewShardedChannelBasedPool C numShards gomaxprocs alloc cl s).1.capacitySum ∧
     (NewShardedChannelBasedPool C numShards gomaxprocs alloc cl s).1.capacitySum ≤ C) := by
  intro σ C numShards gomaxprocs alloc cl s h1 h2
  have hdiv : 1 ≤ C / numShards := (Nat.one_le_div_iff (by omega)).mpr h2
  have hmax : max (C / numShards) 1 = C / numShards := Nat.max_eq_left hdiv
  have hmul_le : numShards * (C / numShards) ≤ C := by
    calc numShards * (C / numShards) = C / numShards * numShards := Nat.mul_comm _ _
    _ ≤ C := Nat.div_mul_le_self C numShards
  have hmul_ge : numShards ≤ numShards * (C / numShards) := by
    calc numShards = numShards * 1 := (Nat.mul_one numShards).symm
    _ ≤ numShards * (C / numShards) := Nat.mul_le_mul_left numShards hdiv
  constructor
  · rw [NewShardedMutex_eq C numShards gomaxprocs alloc cl s h1]
    have hforall := mkShards_forall
      (fun st => NewMutexRingBufferPool (max (C / numShards) 1) alloc cl st)
      (fun shard => shard.effCapacity = max (C / numShards) 1)
      (fun st => (NewMutex_full (max (C / numShards) 1) alloc cl st).2)
      numShards s
    have hlen := mkShards_length
      (fun st => NewMutexRingBufferPool (max (C / numShards) 1) alloc cl st)
      numShards s
    have hsum : (((mkShards
        (fun st => NewMutexRingBufferPool (max (C / numShards) 1) alloc cl st)
        numShards s).1).map MutexRingBufferPool.effCapacity).sum
        = numShards * (C / numShards) := by
      rw [sum_map_const _ _ (max (C / numShards) 1) hforall, hlen, hmax]
    exact ⟨hlen, hforall, by
      show numShards ≤ ShardedMutexRingBufferPool.capacitySum _
      rw [ShardedMutexRingBufferPool.capacitySum, hsum]
      exact hmul_ge, by
      show ShardedMutexRingBufferPool.capacitySum _ ≤ C
      rw [ShardedMutexRingBufferPool.capacitySum, hsum]
      exact hmul_le⟩
  · rw [NewShardedChan_eq C numShards gomaxprocs alloc cl s h1,
      chanShardCap_eq_max C numShards]
    have hforall := mkShards_forall
      (fun st => NewChannelBasedPool (max (C / numShards) 1) alloc cl st)
      (fun shard => shard.effCapacity = max (C / numShards) 1)
      (fun st => rfl)
      numShards s
    have hlen := mkShards_length
      (fun st => NewChannelBasedPool (max (C / numShards) 1) alloc cl st)
      numShards s
    have hsum : (((mkShards
        (fun st => NewChannelBasedPool (max (C / numShards) 1) alloc cl st)
        numShards s).1).map ChannelBasedPool.effCapacity).sum
        = numShards * (C / numShards) := by
      rw [sum_map_const _ _ (max (C / numShards) 1) hforall, hlen, hmax]
    exact ⟨hlen, hforall, by
      show numShards ≤ ShardedChannelBasedPool.capacitySum _
      rw [ShardedChannelBasedPool.capacitySum, hsum]
      exact hmul_ge, by
      show ShardedChannelBasedPool.capacitySum _ ≤ C
      rw [ShardedChannelBasedPool.capacitySum, hsum]
      exact hmul_le⟩

/-- Witness for claim C6 at `C = 5`, `numShards = 2`: both hypotheses hold and
the capacity sums land between 2 and 5 (here both are 4 = 2 * (5 / 2)). -/
theorem c6_shard_capacities_witness :
    1 ≤ 2 ∧ 2 ≤ 5 ∧
    (NewShardedMutexRingBufferPool 5 2 1 (testAllocator (σ := Unit)) testCleaner
      ()).1.shards.length = 2 ∧
    2 ≤ (NewShardedMutexRingBufferPool 5 2 1 (testAllocator (σ := Unit)) testCleaner
      ()).1.capacitySum ∧
    (NewShardedMutexRingBufferPool 5 2 1 (testAllocator (σ := Unit)) testCleaner
      ()).1.capacitySum ≤ 5 ∧
    (NewShardedChannelBasedPool 5 2 1 (testAllocator (σ := Unit)) testCleaner
      ()).1.shards.length = 2 ∧
    2 ≤ (NewShardedChannelBasedPool 5 2 1 (testAllocator (σ := Unit)) testCleaner
      ()).1.capacitySum ∧
    (NewShardedChannelBasedPool 5 2 1 (testAllocator (σ := Unit)) testCleaner
      ()).1.capacitySum ≤ 5 := by
  obtain ⟨⟨l1, _, s1, s2⟩, ⟨l2, _, s3, s4⟩⟩ :=
    c6_shard_capacities 5 2 1 (testAllocator (σ := Unit)) testCleaner ()
      (by decide) (by decide)
  exact ⟨by decide, by decide, l1, s1, s2, l2, s3, s4⟩

theorem Inv_applyOp {T : Type} [Inhabited T] (rb : RingBuffer T) (op : RBOp T)
    (h : rb.Inv) : (rb.applyOp op).Inv := by
  cases op with
  | push item =>
    show ((rb.Push item).2).Inv
    rcases Nat.lt_or_ge rb.size rb.capacity with hlt | hge
    · exact Inv_push h hlt item
    · rw [Push_of_full rb item hge]
      exact h
  | pop =>
    show ((rb.Pop).2.2).Inv
    rcases Nat.eq_zero_or_pos rb.size with h0 | hpos
    · rw [Pop_of_empty rb h0]
      exact h
    · exact Inv_pop h hpos

theorem Inv_applyOps {T : Type} [Inhabited T] (ops : List (RBOp T)) :
    ∀ rb : RingBuffer T, rb.Inv → (rb.applyOps ops).Inv := by
  induction ops with
  | nil => intro rb h; exact h
  | cons op rest ih =>
    intro rb h
    show ((rb.applyOp op).applyOps rest).Inv
    exact ih _ (Inv_applyOp rb op h)

theorem push_pop_charn {T : Type} [Inhabited T] (rb : RingBuffer T) (a : T)
    (h : rb.Inv) :
    ((rb.Push a).1 = false ↔ rb.size = rb.capacity) ∧
    ((rb.Push a).1 = false → (rb.Push a).2 = rb) ∧
    ((rb.Pop).2.1 = false ↔ rb.size = 0) ∧
    ((rb.Pop).2.1 = false → (rb.Pop).1 = default ∧ (rb.Pop).2.2 = rb) := by
  obtain ⟨hsc, _, _, _, _⟩ := h
  have hpushfull : rb.size = rb.capacity → rb.Push a = (false, rb) :=
    fun he => Push_of_full rb a (by omega)
  have hpush : (rb.Push a).1 = false ↔ rb.size = rb.capacity := by
    constructor
    · intro hf
      by_contra hne
      have hlt : rb.size < rb.capacity := by omega
      rw [Push_of_not_full rb a hlt] at hf
      simp at hf
    · intro he
      rw [hpushfull he]
  have hpop : (rb.Pop).2.1 = false ↔ rb.size = 0 := by
    constructor
    · intro hf
      by_contra hne
      have hpos : 0 < rb.size := by omega
      rw [Pop_of_not_empty rb hpos] at hf
      simp at hf
    · intro he
      rw [Pop_of_empty rb he]
  refine ⟨hpush, ?_, hpop, ?_⟩
  · intro hf
    rw [hpushfull (hpush.mp hf)]
  · intro hf
    rw [Pop_of_empty rb (hpop.mp hf)]
    exact ⟨rfl, rfl⟩

/-- Claim C4: starting from a ring buffer of positive capacity, any sequence of
`Push`/`Pop` operations preserves the structural invariant
(`0 <= size <= capacity`, `head` and `tail` valid indices modulo `capacity`),
and on every reachable state `Push` returns `false` exactly when
`size = capacity` — leaving the buffer entirely unchanged in that case — while
`Pop` returns `false` (alongside the zero value) exactly when `size = 0`,
also leaving the buffer unchanged. -/
theorem c4_ringbuffer_invariants (C : Nat) (hC : 0 < C)
    (ops : List (RBOp testObject)) (a : testObject) :
    ((NewRingBuffer testObject C).applyOps ops).Inv ∧
    ((((NewRingBuffer testObject C).applyOps ops).Push a).1 = false ↔
      ((NewRingBuffer testObject C).applyOps ops).size
        = ((NewRingBuffer testObject C).applyOps ops).capacity) ∧
    ((((NewRingBuffer testObject C).applyOps ops).Push a).1 = false →
      (((NewRingBuffer testObject C).applyOps ops).Push a).2
        = (NewRingBuffer testObject C).applyOps ops) ∧
    ((((NewRingBuffer testObject C).applyOps ops).Pop).2.1 = false ↔
      ((NewRingBuffer testObject C).applyOps ops).size = 0) ∧
    ((((NewRingBuffer testObject C).applyOps ops).Pop).2.1 = false →
      (((NewRingBuffer testObject C).applyOps ops).Pop).1 = default ∧
      (((NewRingBuffer testObject C).applyOps ops).Pop).2.2
        = (NewRingBuffer testObject C).applyOps ops) := by
  have hInv := Inv_applyOps ops (NewRingBuffer testObject C) (Inv_new C hC)
  obtain ⟨h1, h2, h3, h4⟩ := push_pop_charn ((NewRingBuffer testObject C).applyOps ops) a hInv
  exact ⟨hInv, h1, h2, h3, h4⟩

/-- Witness for claim C4 at capacity 2: after two pushes the buffer is full and
satisfies the invariant, a third push signals `false` and leaves the state
unchanged; after a push and a pop the buffer is empty and `Pop` signals `false`
returning the zero value. -/
theorem c4_ringbuffer_invariants_witness :
    0 < 2 ∧
    ((NewRingBuffer testObject 2).applyOps
      [RBOp.push (mkObj 1), RBOp.push (mkObj 2)]).Inv ∧
    (((NewRingBuffer testObject 2).applyOps
      [RBOp.push (mkObj 1), RBOp.push (mkObj 2)]).Push (mkObj 3)).1 = false ∧
    (((NewRingBuffer testObject 2).applyOps
      [RBOp.push (mkObj 1), RBOp.push (mkObj 2)]).Push (mkObj 3)).2
      = (NewRingBuffer testObject 2).applyOps
          [RBOp.push (mkObj 1), RBOp.push (mkObj 2)] ∧
    (((NewRingBuffer testObject 2).applyOps
      [RBOp.push (mkObj 1), RBOp.pop]).Pop).2.1 = false ∧
    (((NewRingBuffer testObject 2).applyOps
      [RBOp.push (mkObj 1), RBOp.pop]).Pop).1 = default := by
  obtain ⟨hInvF, hiffF, hunchF, _, _⟩ := c4_ringbuffer_invariants 2 (by decide)
    [RBOp.push (mkObj 1), RBOp.push (mkObj 2)] (mkObj 3)
  obtain ⟨_, _, _, hiffE, hzeroE⟩ := c4_ringbuffer_invariants 2 (by decide)
    [RBOp.push (mkObj 1), RBOp.pop] (mkObj 3)
  have hfullF : (((NewRingBuffer testObject 2).applyOps
      [RBOp.push (mkObj 1), RBOp.push (mkObj 2)]).Push (mkObj 3)).1 = false :=
    hiffF.mpr (by decide)
  have hemptyE : (((NewRingBuffer testObject 2).applyOps
      [RBOp.push (mkObj 1), RBOp.pop]).Pop).2.1 = false :=
    hiffE.mpr (by decide)
  exact ⟨by decide, hInvF, hfullF, hunchF hfullF, hemptyE, (hzeroE hemptyE).1⟩

/-- Claim C3: for every non-blocking single-segment pool variant
(exclusive-lock, shared/exclusive-lock, channel, slice-based, lock-free),
`Get` is a total function — in the embedding it always produces an object —
and whenever the pool is empty it returns exactly the object manufactured by
the injected allocator (threading the allocator state), instead of blocking or
erroring. -/
theorem c3_get_never_fails : ∀ {σ : Type} (s : σ),
    (∀ p : MutexRingBufferPool σ, p.ringBuffer.size = 0 →
      p.Get s = ((p.allocator s).1, p, (p.allocator s).2)) ∧
    (∀ p : RWMutexRingBufferPool σ, p.ringBuffer.size = 0 →
      p.Get s = ((p.allocator s).1, p, (p.allocator s).2)) ∧
    (∀ p : ChannelBasedPool σ, p.objects = [] →
      p.Get s = ((p.allocator s).1, p, (p.allocator s).2)) ∧
    (∀ p : MutexBasedPool σ, p.objects.length = 0 →
      p.Get s = ((p.allocator s).1, p, (p.allocator s).2)) ∧
    (∀ p : AtomicBasedPool σ, p.index ≤ 0 →
      p.Get s = ((p.allocator s).1, p, (p.allocator s).2)) := by
  intro σ s
  exact ⟨fun p h => MutexGet_empty p s h,
    fun p h => RWMutexGet_empty p s h,
    fun p h => ChanGet_empty p s h,
    fun p h => SliceGet_empty p s h,
    fun p h => AtomicGet_nonpos p s h⟩

/-- Witness for claim C3: on concrete empty pools with the counting allocator
at counter 7, every variant's `Get` returns the freshly allocated object
`mkObj 7` and advances the counter to 8. -/
theorem c3_get_never_fails_witness :
    (({ ringBuffer := NewRingBuffer testObject 1, allocator := countingAllocator,
        cleaner := testCleaner } : MutexRingBufferPool Nat).Get 7).1 = mkObj 7 ∧
    (({ ringBuffer := NewRingBuffer testObject 1, allocator := countingAllocator,
        cleaner := testCleaner } : MutexRingBufferPool Nat).Get 7).2.2 = 8 ∧
    (({ ringBuffer := NewRingBuffer testObject 1, allocator := countingAllocator,
        cleaner := testCleaner } : RWMutexRingBufferPool Nat).Get 7).1 = mkObj 7 ∧
    (({ objects := [], capacity := 1, allocator := countingAllocator,
        cleaner := testCleaner } : ChannelBasedPool Nat).Get 7).1 = mkObj 7 ∧
    (({ objects := [], capacity := 1, allocator := countingAllocator,
        cleaner := testCleaner } : MutexBasedPool Nat).Get 7).1 = mkObj 7 ∧
    (({ objects := [], index := 0, capacity := 1, allocator := countingAllocator,
        cleaner := testCleaner } : AtomicBasedPool Nat).Get 7).1 = mkObj 7 := by
  obtain ⟨hm, hr, hc, hs, ha⟩ := c3_get_never_fails (σ := Nat) 7
  refine ⟨?_, ?_, ?_, ?_, ?_, ?_⟩
  · rw [hm _ (by decide)]; rfl
  · rw [hm _ (by decide)]; rfl
  · rw [hr _ (by decide)]; rfl
  · rw [hc _ (by decide)]; rfl
  · rw [hs _ (by decide)]; rfl
  · rw [ha _ (by decide)]; rfl

/-- Claim C5: the lock-free pool keeps its fill index inside `[0, capacity]`
across `Get` and `Put` (single-threaded CAS semantics); `Get` allocates when
the loaded index is `<= 0` and otherwise returns the slot at the decremented
index; `Put` drops the object when the loaded index is `>= capacity` and
otherwise stores it at the pre-increment index and increments. -/
theorem c5_atomic_semantics : ∀ {σ : Type} (p : AtomicBasedPool σ) (s : σ)
    (obj : testObject),
    (0 ≤ p.index → p.index ≤ p.capacity →
      0 ≤ ((p.Get s).2.1).index ∧ ((p.Get s).2.1).index ≤ p.capacity ∧
      0 ≤ (p.Put obj).index ∧ (p.Put obj).index ≤ p.capacity) ∧
    (p.index ≤ 0 → p.Get s = ((p.allocator s).1, p, (p.allocator s).2)) ∧
    (0 < p.index →
      (p.Get s).1 = p.objects.getD (p.index - 1).toNat default ∧
      ((p.Get s).2.1).index = p.index - 1 ∧
      ((p.Get s).2.1).objects = p.objects ∧ (p.Get s).2.2 = s) ∧
    (p.index ≥ p.capacity → p.Put obj = p) ∧
    (p.index < p.capacity →
      (p.Put obj).objects = p.objects.set p.index.toNat obj ∧
      (p.Put obj).index = p.index + 1) := by
  intro σ p s obj
  refine ⟨?_, fun h => AtomicGet_nonpos p s h, ?_,
    fun h => AtomicPut_full p obj h, ?_⟩
  · intro h0 hcap
    have hput : 0 ≤ (p.Put obj).index ∧ (p.Put obj).index ≤ p.capacity := by
      rcases lt_or_ge p.index p.capacity with hlt | hge
      · rw [AtomicPut_room p obj hlt]
        constructor
        · show (0 : Int) ≤ p.index + 1
          omega
        · show p.index + 1 ≤ p.capacity
          omega
      · rw [AtomicPut_full p obj hge]
        exact ⟨h0, hcap⟩
    have hget : 0 ≤ ((p.Get s).2.1).index ∧ ((p.Get s).2.1).index ≤ p.capacity := by
      rcases le_or_lt p.index 0 with hle | hpos
      · rw [AtomicGet_nonpos p s hle]
        exact ⟨h0, hcap⟩
      · rw [AtomicGet_pos p s hpos]
        constructor
        · show (0 : Int) ≤ p.index - 1
          omega
        · show p.index - 1 ≤ p.capacity
          omega
    exact ⟨hget.1, hget.2, hput.1, hput.2⟩
  · intro hpos
    rw [AtomicGet_pos p s hpos]
    exact ⟨rfl, rfl, rfl, rfl⟩
  · intro hlt
    rw [AtomicPut_room p obj hlt]
    exact ⟨rfl, rfl⟩

/-- Witness for claim C5 on a concrete lock-free pool with two slots and fill
index 1: `Get` returns slot 0 and decrements the index to 0; `Put` stores at
slot 1 and increments the index to 2; the index stays inside `[0, 2]`. -/
theorem c5_atomic_semantics_witness :
    (witnessAtomicPool.Get 5).1 = mkObj 0 ∧
    ((witnessAtomicPool.Get 5).2.1).index = 0 ∧
    (witnessAtomicPool.Put (mkObj 9)).objects = [mkObj 0, mkObj 9] ∧
    (witnessAtomicPool.Put (mkObj 9)).index = 2 ∧
    0 ≤ (witnessAtomicPool.Put (mkObj 9)).index := by
  obtain ⟨hinv, _, hpos, _, hroom⟩ := c5_atomic_semantics witnessAtomicPool 5 (mkObj 9)
  obtain ⟨hg1, hg2, _, _⟩ := hpos (by decide)
  obtain ⟨hp1, hp2⟩ := hroom (by decide)
  obtain ⟨_, _, hb1, _⟩ := hinv (by decide) (by decide)
  refine ⟨?_, ?_, ?_, ?_, hb1⟩
  · rw [hg1]; decide
  · rw [hg2]; decide
  · rw [hp1]; decide
  · rw [hp2]; decide

/-- Claim C2, counterexample. The claim says every single-segment `Put` first
applies the cleaner. On a drained mutex ring-buffer pool of capacity 1,
`Put` of an object with payload `Data = "x"` stores the object as is: the next
`Get` returns an object whose payload is still `"x"`, whereas the cleaner's
output payload is `""`. -/
theorem c2_counterexample :
    ((((NewMutexRingBufferPool 1 (testAllocator (σ := Unit)) testCleaner ()).1.Get
        ()).2.1.Put { ID := 7, Data := "x", shardIndex := 0 }).Get ()).1.Data = "x" ∧
    (testCleaner { ID := 7, Data := "x", shardIndex := 0 }).Data = "" := by
  constructor <;> rfl

/-- Claim C2, amended: for the mutex ring-buffer, RWMutex ring-buffer,
slice-based and lock-free single-segment pools, `Put(obj)` attempts to return
the object itself, without applying the cleaner; when the segment is at
capacity the object is silently discarded and the segment state is unchanged.
The channel-based pool deviates on both points: its `Put` applies the cleaner
first and then performs a blocking send that never discards. -/
theorem c2_amended : ∀ {σ : Type} (obj : testObject),
    (∀ p : MutexRingBufferPool σ,
      (p.ringBuffer.size ≥ p.ringBuffer.capacity → p.Put obj = p) ∧
      (p.ringBuffer.size < p.ringBuffer.capacity →
        (p.Put obj).ringBuffer.size = p.ringBuffer.size + 1 ∧
        (p.Put obj).ringBuffer.buffer
          = p.ringBuffer.buffer.set p.ringBuffer.tail obj)) ∧
    (∀ p : RWMutexRingBufferPool σ,
      (p.ringBuffer.size ≥ p.ringBuffer.capacity → p.Put obj = p) ∧
      (p.ringBuffer.size < p.ringBuffer.capacity →
        (p.Put obj).ringBuffer.size = p.ringBuffer.size + 1 ∧
        (p.Put obj).ringBuffer.buffer
          = p.ringBuffer.buffer.set p.ringBuffer.tail obj)) ∧
    (∀ p : MutexBasedPool σ,
      (p.objects.length ≥ p.capacity → p.Put obj = p) ∧
      (p.objects.length < p.capacity →
        (p.Put obj).objects = p.objects ++ [obj])) ∧
    (∀ p : AtomicBasedPool σ,
      (p.index ≥ p.capacity → p.Put obj = p) ∧
      (p.index < p.capacity →
        (p.Put obj).objects = p.objects.set p.index.toNat obj ∧
        (p.Put obj).index = p.index + 1)) ∧
    (∀ p : ChannelBasedPool σ,
      p.Put obj = if p.objects.length < p.capacity
        then some { p with objects := p.objects ++ [p.cleaner obj] }
        else none) := by
  intro σ obj
  refine ⟨?_, ?_, ?_, ?_, ?_⟩
  · intro p
    constructor
    · intro hge
      rw [MutexPut_eq, Push_of_full _ _ hge]
    · intro hlt
      rw [MutexPut_eq, Push_of_not_full _ _ hlt]
      exact ⟨rfl, rfl⟩
  · intro p
    constructor
    · intro hge
      rw [RWMutexPut_eq, Push_of_full _ _ hge]
    · intro hlt
      rw [RWMutexPut_eq, Push_of_not_full _ _ hlt]
      exact ⟨rfl, rfl⟩
  · intro p
    constructor
    · intro hge
      have h' : ¬ p.objects.length < p.capacity := by omega
      simp [MutexBasedPool.Put, h']
    · intro hlt
      simp [MutexBasedPool.Put, hlt]
  · intro p
    exact ⟨fun h => AtomicPut_full p obj h, fun h => by
      rw [AtomicPut_room p obj h]; exact ⟨rfl, rfl⟩⟩
  · intro p
    rfl

/-- Witness for claim C2 on concrete capacity-1 pools: a full mutex pool's
`Put` leaves the pool unchanged; a drained mutex pool's `Put` of an uncleaned
object stores that object with payload intact; the channel pool's `Put` stores
the cleaned object instead. -/
theorem c2_amended_witness :
    witnessMutexPoolFull.Put { ID := 7, Data := "x", shardIndex := 0 }
      = witnessMutexPoolFull ∧
    (witnessMutexPoolDrained.Put
        { ID := 7, Data := "x", shardIndex := 0 }).ringBuffer.buffer
      = [{ ID := 7, Data := "x", shardIndex := 0 }] ∧
    (witnessChanPoolEmpty.Put { ID := 7, Data := "x", shardIndex := 0 }).map
        (fun q => q.objects)
      = some [{ ID := 0, Data := "", shardIndex := -1 }] := by
  obtain ⟨hm, _, _, _, hc⟩ := c2_amended (σ := Nat) { ID := 7, Data := "x", shardIndex := 0 }
  refine ⟨?_, ?_, ?_⟩
  · exact (hm witnessMutexPoolFull).1 (by decide)
  · rw [((hm witnessMutexPoolDrained).2 (by decide)).2]
    decide
  · rw [hc witnessChanPoolEmpty]
    decide

/-- Claim C1, counterexample. The claim says `Put` with an out-of-range cached
index is a no-op for every sharded pool, but `ShardedAtomicBasedPool.Put`
performs `p.shards[obj.shardIndex]` with no bounds check: with the unassigned
index `-1` the lookup is out of bounds (a Go panic, modelled as `none`), not a
no-op. -/
theorem c1_counterexample :
    (NewShardedAtomicBasedPool 2 2 1 (testAllocator (σ := Unit)) testCleaner
      ()).1.Put { ID := 0, Data := "test", shardIndex := -1 } = none := rfl

/-- Claim C1, amended: only the sharded channel pool guards the cached index —
its `Put` with an index outside `[0, numShards)` falls through as a no-op,
returning the pool unchanged. The other four sharded pools look the shard up
unguarded, so a negative cached index (such as the unassigned `-1`) faults
(out-of-bounds slice access, modelled as `none`) instead of being a no-op. -/
theorem c1_amended : ∀ {σ : Type} (obj : testObject),
    (∀ p : ShardedChannelBasedPool σ,
      obj.shardIndex < 0 ∨ (p.shards.length : Int) ≤ obj.shardIndex →
      p.Put obj = some p) ∧
    (∀ p : ShardedAtomicBasedPool σ, obj.shardIndex < 0 → p.Put obj = none) ∧
    (∀ p : ShardedMutexRingBufferPool σ, obj.shardIndex < 0 → p.Put obj = none) ∧
    (∀ p : ShardedCondBasedPool σ, obj.shardIndex < 0 → p.Put obj = none) ∧
    (∀ p : ShardedRingBufferCondPool σ, obj.shardIndex < 0 → p.Put obj = none) := by
  intro σ obj
  refine ⟨?_, ?_, ?_, ?_, ?_⟩
  · intro p h
    have hguard : ¬ (0 ≤ obj.shardIndex ∧ obj.shardIndex < (p.shards.length : Int)) := by
      omega
    simp [ShardedChannelBasedPool.Put, hguard]
  · intro p h
    simp [ShardedAtomicBasedPool.Put, h]
  · intro p h
    simp [ShardedMutexRingBufferPool.Put, h]
  · intro p h
    simp [ShardedCondBasedPool.Put, h]
  · intro p h
    simp [ShardedRingBufferCondPool.Put, h]

/-- Witness for claim C1: on concrete two-shard pools, `Put` of an object with
the unassigned index `-1` returns the sharded channel pool unchanged while the
sharded mutex pool's unguarded lookup faults. -/
theorem c1_amended_witness :
    (NewShardedChannelBasedPool 2 2 1 (testAllocator (σ := Unit)) testCleaner
      ()).1.Put { ID := 0, Data := "test", shardIndex := -1 }
      = some (NewShardedChannelBasedPool 2 2 1 (testAllocator (σ := Unit))
          testCleaner ()).1 ∧
    (NewShardedMutexRingBufferPool 2 2 1 (testAllocator (σ := Unit)) testCleaner
      ()).1.Put { ID := 0, Data := "test", shardIndex := -1 } = none := by
  obtain ⟨hchan, _, hmutex, _, _⟩ := c1_amended (σ := Unit)
    { ID := 0, Data := "test", shardIndex := -1 }
  exact ⟨hchan _ (Or.inl (by decide)), hmutex _ (by decide)⟩

/-! ## Two-element ordering lemmas -/

theorem mutexFIFO_two {σ : Type} (p : MutexRingBufferPool σ) (s : σ)
    (x y : testObject) (hInv : p.ringBuffer.Inv) (hsz : p.ringBuffer.size = 0)
    (hcap : 2 ≤ p.ringBuffer.capacity) :
    (((p.Put x).Put y).Get s).1 = x ∧
    (((((p.Put x).Put y).Get s).2.1).Get s).1 = y := by
  have hlt0 : p.ringBuffer.size < p.ringBuffer.capacity := by omega
  have htl0 : p.ringBuffer.toList = [] := by
    simp [RingBuffer.toList, hsz]
  have hInv1 := Inv_push hInv hlt0 x
  have hsz1 := Push_size p.ringBuffer x hlt0
  have hcap1 := Push_capacity p.ringBuffer x
  have htl1 : ((p.ringBuffer.Push x).2).toList = [x] := by
    rw [Push_toList hInv hlt0 x, htl0]
    rfl
  have hlt1 : ((p.ringBuffer.Push x).2).size < ((p.ringBuffer.Push x).2).capacity := by
    omega
  have hInv2 := Inv_push hInv1 hlt1 y
  have hsz2 := Push_size _ y hlt1
  have htl2 : ((((p.ringBuffer.Push x).2).Push y).2).toList = [x, y] := by
    rw [Push_toList hInv1 hlt1 y, htl1]
    rfl
  have hpp : (p.Put x).Put y
      = { p with ringBuffer := (((p.ringBuffer.Push x).2).Push y).2 } := rfl
  rw [hpp]
  have hpos2 : 0 < ((((p.ringBuffer.Push x).2).Push y).2).size := by omega
  rw [MutexGet_pop _ s hpos2]
  have hdec := toList_pop_decomp hInv2 hpos2
  rw [htl2] at hdec
  obtain ⟨hx, hrest⟩ := List.cons.inj hdec.symm
  have hsz3 := Pop_size ((((p.ringBuffer.Push x).2).Push y).2) hpos2
  have hInv3 := Inv_pop hInv2 hpos2
  have hpos3 : 0 < ((((((p.ringBuffer.Push x).2).Push y).2).Pop).2.2).size := by omega
  refine ⟨hx, ?_⟩
  rw [MutexGet_pop _ s hpos3]
  have hdec2 := toList_pop_decomp hInv3 hpos3
  rw [hrest] at hdec2
  obtain ⟨hy, _⟩ := List.cons.inj hdec2.symm
  exact hy

theorem chanFIFO_two {σ : Type} (p : ChannelBasedPool σ) (s : σ)
    (x y : testObject) (hobj : p.objects = []) (hcap : 2 ≤ p.capacity) :
    ((p.Put x).bind (fun q => q.Put y)).map
      (fun q => ((q.Get s).1, (((q.Get s).2.1).Get s).1))
      = some (p.cleaner x, p.cleaner y) := by
  have hg0 : p.objects.length < p.capacity := by
    rw [hobj]
    show 0 < p.capacity
    omega
  have h1 : p.Put x = some { p with objects := [p.cleaner x] } := by
    have hc0 : 0 < p.capacity := by omega
    simp [ChannelBasedPool.Put, hobj, hc0]
  have h2 : ({ p with objects := [p.cleaner x] } : ChannelBasedPool σ).Put y
      = some { p with objects := [p.cleaner x, p.cleaner y] } := by
    have hg1 : (1 : Nat) < p.capacity := by omega
    simp [ChannelBasedPool.Put, hg1]
  rw [h1, Option.some_bind, h2, Option.map_some']
  rfl

theorem atomicLIFO_two {σ : Type} (p : AtomicBasedPool σ) (s : σ)
    (x y : testObject) (hidx : p.index = 0) (hcap : 2 ≤ p.capacity)
    (hlen : (p.objects.length : Int) = p.capacity) :
    (((p.Put x).Put y).Get s).1 = y ∧
    (((((p.Put x).Put y).Get s).2.1).Get s).1 = x := by
  have hlen2 : 2 ≤ p.objects.length := by omega
  have h0 : p.index < p.capacity := by omega
  have e1 : p.Put x = { p with
      objects := p.objects.set p.index.toNat x
      index := p.index + 1 } := AtomicPut_room p x h0
  have h1 : (p.Put x).index < (p.Put x).capacity := by
    rw [e1]
    show p.index + 1 < p.capacity
    omega
  have e2 : (p.Put x).Put y = { p with
      objects := (p.objects.set p.index.toNat x).set ((p.index + 1)).toNat y
      index := p.index + 1 + 1 } := by
    rw [AtomicPut_room _ y h1, e1]
  have h2 : 0 < ((p.Put x).Put y).index := by
    rw [e2]
    show 0 < p.index + 1 + 1
    omega
  rw [AtomicGet_pos _ s h2, e2]
  have hta : ((0 : Int)).toNat = 0 := by decide
  have htb : ((0 : Int) + 1).toNat = 1 := by decide
  have htc : ((0 : Int) + 1 + 1 - 1).toNat = 1 := by decide
  have htd : ((0 : Int) + 1 + 1 - 1 - 1).toNat = 0 := by decide
  constructor
  · show ((p.objects.set p.index.toNat x).set ((p.index + 1)).toNat y).getD
      ((p.index + 1 + 1 - 1)).toNat default = y
    rw [hidx, htb, htc]
    exact getD_set_self (by simpa using (by omega : 1 < p.objects.length)) y default
  · show (({ p with
        objects := (p.objects.set p.index.toNat x).set ((p.index + 1)).toNat y
        index := p.index + 1 + 1 - 1 } : AtomicBasedPool σ).Get s).1 = x
    have h3 : (0 : Int) < p.index + 1 + 1 - 1 := by omega
    rw [AtomicGet_pos _ s h3]
    show ((p.objects.set p.index.toNat x).set ((p.index + 1)).toNat y).getD
      ((p.index + 1 + 1 - 1 - 1)).toNat default = x
    rw [hidx, hta, htb, htd]
    rw [getD_set_ne (by omega) y default]
    exact getD_set_self (by omega) x default

theorem sliceLIFO_two {σ : Type} (p : MutexBasedPool σ) (s : σ)
    (x y : testObject) (hobj : p.objects = []) (hcap : 2 ≤ p.capacity) :
    (((p.Put x).Put y).Get s).1 = y ∧
    (((((p.Put x).Put y).Get s).2.1).Get s).1 = x := by
  have hg0 : p.objects.length < p.capacity := by
    rw [hobj]
    show 0 < p.capacity
    omega
  have h1 : p.Put x = { p with objects := [x] } := by
    have hc0 : 0 < p.capacity := by omega
    simp [MutexBasedPool.Put, hobj, hc0]
  have h2 : ({ p with objects := [x] } : MutexBasedPool σ).Put y
      = { p with objects := [x, y] } := by
    have hg1 : (1 : Nat) < p.capacity := by omega
    simp [MutexBasedPool.Put, hg1]
  rw [h1, h2]
  rw [SliceGet_last _ s (by simp)]
  constructor
  · rfl
  · show (({ p with objects := ([x, y] : List testObject).dropLast } :
        MutexBasedPool σ).Get s).1 = x
    rw [SliceGet_last _ s (by simp)]
    rfl

/-- Claim C9: within a single sequentially accessed segment, consecutive `Get`
calls return objects in the order of the backing structure. Starting from an
empty segment with room for two objects, after `Put x` then `Put y` the
ring-buffer and channel segments return `x` before `y` (first in, first out;
the channel returns the cleaned objects since its `Put` applies the cleaner),
while the lock-free and slice segments return `y` before `x` (last in, first
out). -/
theorem c9_segment_ordering : ∀ {σ : Type} (s : σ) (x y : testObject),
    (∀ p : MutexRingBufferPool σ, p.ringBuffer.Inv → p.ringBuffer.size = 0 →
      2 ≤ p.ringBuffer.capacity →
      (((p.Put x).Put y).Get s).1 = x ∧
      (((((p.Put x).Put y).Get s).2.1).Get s).1 = y) ∧
    (∀ p : ChannelBasedPool σ, p.objects = [] → 2 ≤ p.capacity →
      ((p.Put x).bind (fun q => q.Put y)).map
        (fun q => ((q.Get s).1, (((q.Get s).2.1).Get s).1))
        = some (p.cleaner x, p.cleaner y)) ∧
    (∀ p : AtomicBasedPool σ, p.index = 0 → 2 ≤ p.capacity →
      (p.objects.length : Int) = p.capacity →
      (((p.Put x).Put y).Get s).1 = y ∧
      (((((p.Put x).Put y).Get s).2.1).Get s).1 = x) ∧
    (∀ p : MutexBasedPool σ, p.objects = [] → 2 ≤ p.capacity →
      (((p.Put x).Put y).Get s).1 = y ∧
      (((((p.Put x).Put y).Get s).2.1).Get s).1 = x) :=
  fun s x y =>
    ⟨fun p h1 h2 h3 => mutexFIFO_two p s x y h1 h2 h3,
     fun p h1 h2 => chanFIFO_two p s x y h1 h2,
     fun p h1 h2 h3 => atomicLIFO_two p s x y h1 h2 h3,
     fun p h1 h2 => sliceLIFO_two p s x y h1 h2⟩

/-- Witness for claim C9 on concrete empty capacity-2 pools: putting `mkObj 8`
then `mkObj 9` makes the mutex ring-buffer pool's Gets return them in FIFO
order, the channel pool's Gets return the cleaned objects in FIFO order, and
the lock-free and slice pools' Gets return them in LIFO order. -/
theorem c9_segment_ordering_witness :
    (((witnessMutexPoolEmpty2.Put (mkObj 8)).Put (mkObj 9)).Get 0).1 = mkObj 8 ∧
    ((((witnessMutexPoolEmpty2.Put (mkObj 8)).Put (mkObj 9)).Get 0).2.1.Get 0).1
      = mkObj 9 ∧
    ((witnessChanPoolEmpty2.Put (mkObj 8)).bind (fun q => q.Put (mkObj 9))).map
        (fun q => ((q.Get 0).1, (((q.Get 0).2.1).Get 0).1))
      = some (testCleaner (mkObj 8), testCleaner (mkObj 9)) ∧
    (((witnessAtomicPoolEmpty2.Put (mkObj 8)).Put (mkObj 9)).Get 0).1 = mkObj 9 ∧
    ((((witnessAtomicPoolEmpty2.Put (mkObj 8)).Put (mkObj 9)).Get 0).2.1.Get 0).1
      = mkObj 8 ∧
    (((witnessSlicePoolEmpty2.Put (mkObj 8)).Put (mkObj 9)).Get 0).1 = mkObj 9 := by
  obtain ⟨hm, hc, ha, hs⟩ := c9_segment_ordering (σ := Nat) 0 (mkObj 8) (mkObj 9)
  obtain ⟨hm1, hm2⟩ := hm witnessMutexPoolEmpty2 (by decide) (by decide) (by decide)
  have hcEq := hc witnessChanPoolEmpty2 rfl (by decide)
  obtain ⟨ha1, ha2⟩ := ha witnessAtomicPoolEmpty2 (by decide) (by decide) (by decide)
  obtain ⟨hs1, _⟩ := hs witnessSlicePoolEmpty2 rfl (by decide)
  exact ⟨hm1, hm2, hcEq, ha1, ha2, hs1⟩

/-- Claim C10: every object returned by a proc-pinned sharded pool's `Get`
carries the index of the segment it was drawn from in its `shardIndex` field,
a value in `[0, numShards)` (where `numShards` is the length of the shard
list); objects freshly produced by the test allocator carry the unassigned
index `-1`, and the test cleaner resets `shardIndex` to `-1`. -/
theorem c10_shard_index_stamp : ∀ {σ : Type},
    (∀ (p : ShardedMutexRingBufferPool σ) (pinned : Nat) (s : σ)
        (obj : testObject) (p' : ShardedMutexRingBufferPool σ) (s' : σ),
      p.Get pinned s = some (obj, p', s') →
      obj.shardIndex = (pinned : Int) ∧ 0 ≤ obj.shardIndex ∧
      obj.shardIndex < (p.shards.length : Int)) ∧
    (∀ (p : ShardedChannelBasedPool σ) (pinned : Nat) (s : σ)
        (obj : testObject) (p' : ShardedChannelBasedPool σ) (s' : σ),
      p.Get pinned s = some (obj, p', s') →
      obj.shardIndex = (pinned : Int) ∧ 0 ≤ obj.shardIndex ∧
      obj.shardIndex < (p.shards.length : Int)) ∧
    (∀ (p : ShardedAtomicBasedPool σ) (pinned : Nat) (s : σ)
        (obj : testObject) (p' : ShardedAtomicBasedPool σ) (s' : σ),
      p.Get pinned s = some (obj, p', s') →
      obj.shardIndex = (pinned : Int) ∧ 0 ≤ obj.shardIndex ∧
      obj.shardIndex < (p.shards.length : Int)) ∧
    (∀ (p : ShardedCondBasedPool σ) (pinned : Nat)
        (obj : testObject) (p' : ShardedCondBasedPool σ),
      p.Get pinned = some (obj, p') →
      obj.shardIndex = (pinned : Int) ∧ 0 ≤ obj.shardIndex ∧
      obj.shardIndex < (p.shards.length : Int)) ∧
    (∀ (p : ShardedRingBufferCondPool σ) (pinned : Nat)
        (obj : testObject) (p' : ShardedRingBufferCondPool σ),
      p.Get pinned = some (obj, p') →
      obj.shardIndex = (pinned : Int) ∧ 0 ≤ obj.shardIndex ∧
      obj.shardIndex < (p.shards.length : Int)) ∧
    (∀ s : σ, ((testAllocator s).1).shardIndex = -1) ∧
    (∀ o : testObject, (testCleaner o).shardIndex = -1) := by
  intro σ
  refine ⟨?_, ?_, ?_, ?_, ?_, fun s => rfl, fun o => rfl⟩
  · intro p pinned s obj p' s' h
    unfold ShardedMutexRingBufferPool.Get at h
    cases hget : p.shards.get? pinned with
    | none =>
      rw [hget] at h
      exact Option.noConfusion h
    | some shard =>
      rw [hget] at h
      obtain ⟨hlt, _⟩ := List.get?_eq_some.mp hget
      have h2 : ((pinned : Nat) : Int) = obj.shardIndex :=
        congrArg (fun t => t.1.shardIndex) (Option.some.inj h)
      refine ⟨h2.symm, ?_, ?_⟩
      · rw [← h2]
        exact Int.ofNat_nonneg pinned
      · rw [← h2]
        exact_mod_cast hlt
  · intro p pinned s obj p' s' h
    unfold ShardedChannelBasedPool.Get at h
    cases hget : p.shards.get? pinned with
    | none =>
      rw [hget] at h
      exact Option.noConfusion h
    | some shard =>
      rw [hget] at h
      obtain ⟨hlt, _⟩ := List.get?_eq_some.mp hget
      have h2 : ((pinned : Nat) : Int) = obj.shardIndex :=
        congrArg (fun t => t.1.shardIndex) (Option.some.inj h)
      refine ⟨h2.symm, ?_, ?_⟩
      · rw [← h2]
        exact Int.ofNat_nonneg pinned
      · rw [← h2]
        exact_mod_cast hlt
  · intro p pinned s obj p' s' h
    unfold ShardedAtomicBasedPool.Get at h
    cases hget : p.shards.get? pinned with
    | none =>
      rw [hget] at h
      exact Option.noConfusion h
    | some shard =>
      rw [hget] at h
      obtain ⟨hlt, _⟩ := List.get?_eq_some.mp hget
      have h2 : ((pinned : Nat) : Int) = obj.shardIndex :=
        congrArg (fun t => t.1.shardIndex) (Option.some.inj h)
      refine ⟨h2.symm, ?_, ?_⟩
      · rw [← h2]
        exact Int.ofNat_nonneg pinned
      · rw [← h2]
        exact_mod_cast hlt
  · intro p pinned obj p' h
    unfold ShardedCondBasedPool.Get at h
    cases hget : p.shards.get? pinned with
    | none =>
      rw [hget] at h
      exact Option.noConfusion h
    | some shard =>
      rw [hget] at h
      dsimp only at h
      obtain ⟨hlt, _⟩ := List.get?_eq_some.mp hget
      cases hsg : shard.Get with
      | none =>
        rw [hsg] at h
        exact Option.noConfusion h
      | some pr =>
        obtain ⟨o2, sh2⟩ := pr
        rw [hsg] at h
        dsimp only at h
        have h2 : ((pinned : Nat) : Int) = obj.shardIndex :=
          congrArg (fun t => t.1.shardIndex) (Option.some.inj h)
        refine ⟨h2.symm, ?_, ?_⟩
        · rw [← h2]
          exact Int.ofNat_nonneg pinned
        · rw [← h2]
          exact_mod_cast hlt
  · intro p pinned obj p' h
    unfold ShardedRingBufferCondPool.Get at h
    cases hget : p.shards.get? pinned with
    | none =>
      rw [hget] at h
      exact Option.noConfusion h
    | some shard =>
      rw [hget] at h
      dsimp only at h
      obtain ⟨hlt, _⟩ := List.get?_eq_some.mp hget
      cases hsg : shard.Get with
      | none =>
        rw [hsg] at h
        exact Option.noConfusion h
      | some pr =>
        obtain ⟨o2, sh2⟩ := pr
        rw [hsg] at h
        dsimp only at h
        have h2 : ((pinned : Nat) : Int) = obj.shardIndex :=
          congrArg (fun t => t.1.shardIndex) (Option.some.inj h)
        refine ⟨h2.symm, ?_, ?_⟩
        · rw [← h2]
          exact Int.ofNat_nonneg pinned
        · rw [← h2]
          exact_mod_cast hlt

/-- Witness for claim C10: on a concrete two-shard lock-free pool, `Get`
pinned to processor 1 returns an object stamped with shard index 1, the test
allocator's fresh object carries `-1`, and the cleaner resets the field to
`-1`. -/
theorem c10_shard_index_stamp_witness :
    (((NewShardedAtomicBasedPool 2 2 1 (testAllocator (σ := Unit)) testCleaner
        ()).1.Get 1 ()).map (fun r => r.1.shardIndex)) = some 1 ∧
    ((testAllocator (σ := Unit) ()).1).shardIndex = -1 ∧
    (testCleaner (mkObj 5)).shardIndex = -1 := by
  obtain ⟨_, _, hatomic, _, _, halloc, hclean⟩ := c10_shard_index_stamp (σ := Unit)
  refine ⟨?_, halloc (), hclean (mkObj 5)⟩
  have hs : ((NewShardedAtomicBasedPool 2 2 1 (testAllocator (σ := Unit))
      testCleaner ()).1.Get 1 ()).isSome = true := rfl
  rw [← Option.some_get hs, Option.map_some']
  have hr := (Option.some_get hs).symm
  have hstamp := (hatomic _ 1 () _ _ _ hr).1
  exact congrArg some hstamp
